import Mathlib

/-!
# Verification of the Hospital_Management REST layer

A shallow embedding of the Express route handlers in
`apps/http/src/routes/webRoutes.ts` and `apps/http/src/routes/bulk.ts`,
of the relational schema in `packages/db/prisma/migrations`, and of the
client-side bed filter in the bed-management component.

The database is modelled as lists of rows (one list per table) plus a
fresh-id counter standing for the SERIAL sequences.  Each handler becomes a
pure function from a request and a database state to an HTTP status and the
successor state.  Prisma/PostgreSQL failure modes that the handlers catch
(unique-constraint violations `P2002`, missing rows `P2025`, foreign-key and
enum-domain violations) are modelled as explicit checks that route to the
same status codes the `catch` blocks produce.
-/

namespace Hospital

/-! ## JavaScript semantics helpers -/

/-- Value of a character as a digit in the given base, if it is one
(`parseInt` accepts `0-9`, `a-z`, `A-Z` up to the base). -/
def digitVal (base : Nat) (c : Char) : Option Nat :=
  let v : Option Nat :=
    if '0' ≤ c ∧ c ≤ '9' then some (c.toNat - '0'.toNat)
    else if 'a' ≤ c ∧ c ≤ 'z' then some (c.toNat - 'a'.toNat + 10)
    else if 'A' ≤ c ∧ c ≤ 'Z' then some (c.toNat - 'A'.toNat + 10)
    else none
  match v with
  | some v => if v < base then some v else none
  | none => none

/-- Longest prefix of digits in the given base, accumulated left to right;
`none` when no digit was consumed (JavaScript `NaN`). -/
def parseDigits (base : Nat) : List Char → Option Nat → Option Nat
  | [], acc => acc
  | c :: cs, acc =>
    match digitVal base c with
    | some d => parseDigits base cs (some ((acc.getD 0) * base + d))
    | none => acc

/-- JavaScript `parseInt(s)` (radix unspecified): skip leading whitespace,
optional sign, autodetected `0x`/`0X` hex prefix, longest digit prefix,
ignoring trailing garbage; `none` models `NaN`. -/
def jsParseInt (s : String) : Option Int :=
  let cs := s.data.dropWhile Char.isWhitespace
  let signAndRest : Int × List Char :=
    match cs with
    | '-' :: rest => (-1, rest)
    | '+' :: rest => (1, rest)
    | _ => (1, cs)
  let baseAndRest : Nat × List Char :=
    match signAndRest.2 with
    | '0' :: 'x' :: rest => (16, rest)
    | '0' :: 'X' :: rest => (16, rest)
    | rest => (10, rest)
  (parseDigits baseAndRest.1 baseAndRest.2 none).map
    (fun n => signAndRest.1 * (n : Int))

/-- JavaScript truthiness of an optional numeric field: `undefined`/`null`
and `0` are falsy (`!departmentId` in the handlers). -/
def jsFalsyId (v : Option Nat) : Bool :=
  match v with
  | none => true
  | some n => n == 0

/-! ## Enums (from `migrations/.../migration.sql`) -/

/-- `CREATE TYPE "BedStatus" AS ENUM ('FREE', 'OCCUPIED', 'MAINTENANCE')`. -/
inductive BedStatusE where
  | FREE
  | OCCUPIED
  | MAINTENANCE
deriving Repr, DecidableEq

/-- `CREATE TYPE "AgeGroupEnum" AS ENUM ('CHILD', 'TEENAGER', 'ADULT', 'OLDER')`. -/
inductive AgeGroupEnum where
  | CHILD
  | TEENAGER
  | ADULT
  | OLDER
deriving Repr, DecidableEq

/-- The PostgreSQL domain check for the `BedStatus` enum column: which
strings are legal values. -/
def parseBedStatus (s : String) : Option BedStatusE :=
  if s = "FREE" then some .FREE
  else if s = "OCCUPIED" then some .OCCUPIED
  else if s = "MAINTENANCE" then some .MAINTENANCE
  else none

/-- The PostgreSQL domain check for the `AgeGroupEnum` column: which strings
are legal values (the `as AgeGroupEnum` cast in the handlers is compile-time
only, so an invalid string is rejected by the database, not by the code). -/
def parseAgeGroup (s : String) : Option AgeGroupEnum :=
  if s = "CHILD" then some .CHILD
  else if s = "TEENAGER" then some .TEENAGER
  else if s = "ADULT" then some .ADULT
  else if s = "OLDER" then some .OLDER
  else none

/-! ## Rows and database state (from the Prisma migrations) -/

structure Department where
  id : Nat
  name : String
deriving Repr, DecidableEq

structure Staff where
  id : Nat
  name : String
  specialization : String
  departmentId : Option Nat
  isAvailable : Bool
deriving Repr, DecidableEq

/-- A bed row; the enum-typed `status` column is kept as the raw string so
that the domain constraint is a provable invariant rather than a typing
artifact. -/
structure Bed where
  id : Nat
  type : String
  status : String
  departmentId : Nat
deriving Repr, DecidableEq

structure Disease where
  id : Nat
  name : String
deriving Repr, DecidableEq

structure Subcategory where
  id : Nat
  name : String
  diseaseId : Nat
deriving Repr, DecidableEq

structure AgeGroup where
  id : Nat
  group : AgeGroupEnum
  ageRange : String
  subcategoryId : Nat
deriving Repr, DecidableEq

/-- `medicineId` is `Int` because the handlers feed it through JavaScript
`parseInt`, whose result is compared against medicine ids. -/
structure PrescribedMedicine where
  id : Nat
  ageGroupId : Nat
  medicineId : Int
  dosage : String
  notes : String
deriving Repr, DecidableEq

structure Medicine where
  id : Int
  name : String
  form : String
  strength : String
  unit : String
deriving Repr, DecidableEq

/-- `expiryDate` is kept as an opaque optional string; no claim depends on
date arithmetic. -/
structure Inventory where
  id : Nat
  medicineId : Int
  availableQty : Int
  batchNumber : Option String
  expiryDate : Option String
deriving Repr, DecidableEq

/-- The database: one list per table plus a single fresh-id counter standing
for the SERIAL sequences (a fresh id is strictly larger than every id already
allocated, which is all the handlers rely on). -/
structure DB where
  departments : List Department
  staff : List Staff
  beds : List Bed
  diseases : List Disease
  subcategories : List Subcategory
  ageGroups : List AgeGroup
  prescribed : List PrescribedMedicine
  medicines : List Medicine
  inventory : List Inventory
  nextId : Nat
deriving Repr, DecidableEq

def emptyDB : DB :=
  { departments := [], staff := [], beds := [], diseases := []
    subcategories := [], ageGroups := [], prescribed := []
    medicines := [], inventory := [], nextId := 1 }

/-! ## Staff routes (`webRoutes.ts` lines 49-96) -/

/-- Request body of `POST /staff`.  `departmentId` is absent or a numeric
id; `isAvailable` is absent or a boolean (`isAvailable ?? true`). -/
structure StaffCreateReq where
  name : String
  specialization : String
  departmentId : Option Nat
  isAvailable : Option Bool
deriving Repr, DecidableEq

/-- `POST /staff`: the two business-rule checks, then `staff.create`; a
foreign-key failure on `departmentId` lands in the `catch` as status 400.
Returns (status, message, state). -/
def postStaff (db : DB) (r : StaffCreateReq) : Nat × String × DB :=
  if r.specialization != "nurse" && jsFalsyId r.departmentId then
    (400, "departmentId required", db)
  else if r.specialization == "nurse" && !(jsFalsyId r.departmentId) then
    (400, "nurse cannot be linked to department", db)
  else
    match r.departmentId with
    | some d =>
      if db.departments.any (fun x => x.id == d) then
        (201, "",
          { db with
              staff := db.staff ++
                [⟨db.nextId, r.name, r.specialization, r.departmentId,
                  r.isAvailable.getD true⟩]
              nextId := db.nextId + 1 })
      else (400, "Failed to create staff", db)
    | none =>
      (201, "",
        { db with
            staff := db.staff ++
              [⟨db.nextId, r.name, r.specialization, none,
                r.isAvailable.getD true⟩]
            nextId := db.nextId + 1 })

/-- Body of `PUT /staff/:id`: Prisma skips a field whose value is
`undefined`, so every field is optional; an explicit JSON `null` for
`departmentId` (clearing it) is the inner `none`. -/
structure StaffUpdateReq where
  name : Option String
  specialization : Option String
  departmentId : Option (Option Nat)
  isAvailable : Option Bool
deriving Repr, DecidableEq

def applyStaffUpdate (db : DB) (sid : Nat) (r : StaffUpdateReq) : DB :=
  { db with
      staff := db.staff.map (fun s =>
        if s.id == sid then
          { s with
              name := r.name.getD s.name
              specialization := r.specialization.getD s.specialization
              departmentId := r.departmentId.getD s.departmentId
              isAvailable := r.isAvailable.getD s.isAvailable }
        else s) }

/-- `PUT /staff/:id`: `staff.update` with no business-rule check at all;
a missing row (`P2025`) or a foreign-key failure lands in the `catch`
as status 400. -/
def putStaff (db : DB) (sid : Nat) (r : StaffUpdateReq) : Nat × DB :=
  if db.staff.any (fun s => s.id == sid) then
    match r.departmentId with
    | some (some d) =>
      if db.departments.any (fun x => x.id == d) then
        (200, applyStaffUpdate db sid r)
      else (400, db)
    | _ => (200, applyStaffUpdate db sid r)
  else (400, db)

/-- The nurse/department exclusivity rule of the spec: a nurse has no
department, anyone else has one. -/
def staffExclusive (db : DB) : Prop :=
  ∀ s ∈ db.staff,
    (s.specialization = "nurse" → s.departmentId = none) ∧
    (s.specialization ≠ "nurse" → s.departmentId ≠ none)

instance (db : DB) : Decidable (staffExclusive db) := by
  unfold staffExclusive
  infer_instance

/-! ## Bed routes (`webRoutes.ts` lines 195-224) -/

structure BedCreateReq where
  type : String
  status : Option String
  departmentId : Option Nat
deriving Repr, DecidableEq

/-- `POST /beds`: explicit check on `type`/`departmentId`, then
`bed.create`; a missing or enum-invalid `status` or a foreign-key failure
on `departmentId` is a database error caught as status 400. -/
def postBed (db : DB) (r : BedCreateReq) : Nat × DB :=
  if r.type == "" || jsFalsyId r.departmentId then (400, db)
  else
    match r.status, r.departmentId with
    | some s, some d =>
      if (parseBedStatus s).isSome && db.departments.any (fun x => x.id == d) then
        (201,
          { db with
              beds := db.beds ++ [⟨db.nextId, r.type, s, d⟩]
              nextId := db.nextId + 1 })
      else (400, db)
    | _, _ => (400, db)

structure BedUpdateReq where
  type : Option String
  status : Option String
  departmentId : Option Nat
deriving Repr, DecidableEq

/-- `PUT /beds/:id`: `bed.update`; absent fields are skipped, an invalid
enum string or foreign key or a missing row is caught as status 400. -/
def putBed (db : DB) (bid : Nat) (r : BedUpdateReq) : Nat × DB :=
  if db.beds.any (fun b => b.id == bid) then
    if (match r.status with
        | some s => (parseBedStatus s).isSome
        | none => true) &&
       (match r.departmentId with
        | some d => db.departments.any (fun x => x.id == d)
        | none => true) then
      (200,
        { db with
            beds := db.beds.map (fun b =>
              if b.id == bid then
                { b with
                    type := r.type.getD b.type
                    status := r.status.getD b.status
                    departmentId := r.departmentId.getD b.departmentId }
              else b) })
    else (400, db)
  else (400, db)

/-- The spec's bed-status domain: `status ∈ {FREE, OCCUPIED, MAINTENANCE}`. -/
def bedStatusValid (s : String) : Prop :=
  s = "FREE" ∨ s = "OCCUPIED" ∨ s = "MAINTENANCE"

instance (s : String) : Decidable (bedStatusValid s) := by
  unfold bedStatusValid
  infer_instance

def bedsStatusOk (db : DB) : Prop :=
  ∀ b ∈ db.beds, bedStatusValid b.status

instance (db : DB) : Decidable (bedsStatusOk db) := by
  unfold bedsStatusOk
  infer_instance

/-! ## Medicine deletion (`webRoutes.ts` lines 494-536) -/

/-- `DELETE /medicines/:id`: count referencing prescriptions, then
referencing inventory, refusing with 400 if either is positive; then
`medicine.delete`, whose `P2025` failure is answered with 404. -/
def deleteMedicine (db : DB) (mid : Int) : Nat × DB :=
  let prescriptionCount := (db.prescribed.filter (fun pm => pm.medicineId == mid)).length
  if prescriptionCount > 0 then (400, db)
  else
    let inventoryCount := (db.inventory.filter (fun i => i.medicineId == mid)).length
    if inventoryCount > 0 then (400, db)
    else if db.medicines.any (fun m => m.id == mid) then
      (200, { db with medicines := db.medicines.filter (fun m => !(m.id == mid)) })
    else (404, db)

/-! ## Disease payload (`DiseaseInput` in `webRoutes.ts`) -/

/-- `medicineId: number | string`. -/
inductive MedId where
  | num (n : Int)
  | str (s : String)
deriving Repr, DecidableEq

/-- JavaScript truthiness of `medicineId` (`!m?.medicineId`): the number 0
and the empty string are falsy, every other number or string is truthy. -/
def medIdFalsy : MedId → Bool
  | .num n => n == 0
  | .str s => s == ""

structure MedInput where
  medicineId : MedId
  dosage : String
  notes : Option String
deriving Repr, DecidableEq

structure AGInput where
  group : String
  age_range : String
  medicines : List MedInput
deriving Repr, DecidableEq

structure SCInput where
  name : String
  age_groups : List AGInput
deriving Repr, DecidableEq

/-- The `DiseaseInput` request body.  Missing strings arrive as the empty
string (both are falsy in the handlers' checks); a missing array arrives as
the empty list (`!Array.isArray(...)` and `!...length` both reject it). -/
structure DiseaseInput where
  name : String
  subcategories : List SCInput
deriving Repr, DecidableEq

/-! ## `validateDiseasePayload` (`webRoutes.ts` lines 592-621)

The source walks the payload with nested `for` loops, throwing on the first
violation and converting string `medicineId`s to numbers in place; the
embedding threads the conversion through `Except`. -/

def validateMeds : List MedInput → Except String (List MedInput)
  | [] => .ok []
  | m :: ms =>
    if medIdFalsy m.medicineId || m.dosage == "" then
      .error "Medicine 'medicineId' and 'dosage' are required"
    else
      match m.medicineId with
      | .str s =>
        match jsParseInt s with
        | some n =>
          if n ≤ 0 then
            .error "Invalid medicineId - must be a valid number greater than 0"
          else
            match validateMeds ms with
            | .ok rest => .ok ({ m with medicineId := .num n } :: rest)
            | .error e => .error e
        | none =>
          .error "Invalid medicineId - must be a valid number greater than 0"
      | .num _ =>
        match validateMeds ms with
        | .ok rest => .ok (m :: rest)
        | .error e => .error e

def validateAGs : List AGInput → Except String (List AGInput)
  | [] => .ok []
  | ag :: ags =>
    if ag.group == "" || ag.age_range == "" then
      .error "AgeGroup 'group' and 'age_range' are required"
    else if ag.medicines.isEmpty then
      .error "Each age group must have at least one medicine"
    else
      match validateMeds ag.medicines with
      | .ok ms =>
        match validateAGs ags with
        | .ok rest => .ok ({ ag with medicines := ms } :: rest)
        | .error e => .error e
      | .error e => .error e

def validateSCs : List SCInput → Except String (List SCInput)
  | [] => .ok []
  | sc :: scs =>
    if sc.name == "" then
      .error "Subcategory name is required"
    else if sc.age_groups.isEmpty then
      .error "Each subcategory must have at least one age group"
    else
      match validateAGs sc.age_groups with
      | .ok ags =>
        match validateSCs scs with
        | .ok rest => .ok ({ sc with age_groups := ags } :: rest)
        | .error e => .error e
      | .error e => .error e

def validateDiseasePayload (p : DiseaseInput) : Except String DiseaseInput :=
  if p.name == "" || p.subcategories.isEmpty then
    .error "At least one subcategory is required"
  else
    match validateSCs p.subcategories with
    | .ok scs => .ok { p with subcategories := scs }
    | .error e => .error e

/-! ## Disease aggregate creation (shared by `POST /diseases`,
`PUT /diseases/:id` and `POST /v1/bulk/diseases/complex`) -/

/-- The id the `connect` clause uses:
`typeof m.medicineId === 'string' ? parseInt(m.medicineId) : m.medicineId`. -/
def resolveMedId : MedId → Option Int
  | .num n => some n
  | .str s => jsParseInt s

/-- Whether the `connect: { id: ... }` clause finds its medicine. -/
def connectOk (db : DB) (m : MedInput) : Bool :=
  match resolveMedId m.medicineId with
  | some v => db.medicines.any (fun x => x.id == v)
  | none => false

/-- The group conversion `POST /diseases` and `PUT /diseases/:id` perform:
the `as AgeGroupEnum` cast succeeds at the database exactly for valid enum
strings, so under the `payloadOk` guard the default is never taken. -/
def convGroup (g : String) : AgeGroupEnum :=
  (parseAgeGroup g).getD .ADULT

/-- Whether a nested `create` succeeds at the database: every group string
is in the enum domain and every medicine connect resolves. -/
def payloadOk (db : DB) (subs : List SCInput) : Bool :=
  subs.all (fun sc =>
    sc.age_groups.all (fun ag =>
      groupOkB ag.group && ag.medicines.all (connectOk db)))
where
  groupOkB (g : String) : Bool := (parseAgeGroup g).isSome

/-- Prisma's client-side argument validation of the nested create: every
group string must be a member of the generated enum.  This check raises
`PrismaClientValidationError` (which carries no `code`) before any query is
sent, so it precedes both the `P2002` duplicate-name error and connect
failures. -/
def groupsOk (subs : List SCInput) : Bool :=
  subs.all (fun sc =>
    sc.age_groups.all (fun ag => (parseAgeGroup ag.group).isSome))

/-- The server-side part of the nested create: every medicine connect finds
its target row (otherwise `P2025`, raised after the disease row's insert). -/
def connectsOk (db : DB) (subs : List SCInput) : Bool :=
  subs.all (fun sc =>
    sc.age_groups.all (fun ag => ag.medicines.all (connectOk db)))

def insertPM (agId : Nat) (m : MedInput) (db : DB) : DB :=
  { db with
      prescribed := db.prescribed ++
        [⟨db.nextId, agId, (resolveMedId m.medicineId).getD 0,
          m.dosage, m.notes.getD ""⟩]
      nextId := db.nextId + 1 }

def createMeds (agId : Nat) : List MedInput → DB → DB
  | [], db => db
  | m :: ms, db => createMeds agId ms (insertPM agId m db)

def createAGs (toEnum : String → AgeGroupEnum) (scId : Nat) :
    List AGInput → DB → DB
  | [], db => db
  | ag :: ags, db =>
    let agId := db.nextId
    let db1 :=
      { db with
          ageGroups := db.ageGroups ++
            [⟨agId, toEnum ag.group, ag.age_range, scId⟩]
          nextId := agId + 1 }
    createAGs toEnum scId ags (createMeds agId ag.medicines db1)

def createSCs (toEnum : String → AgeGroupEnum) (did : Nat) :
    List SCInput → DB → DB
  | [], db => db
  | sc :: scs, db =>
    let scId := db.nextId
    let db1 :=
      { db with
          subcategories := db.subcategories ++ [⟨scId, sc.name, did⟩]
          nextId := scId + 1 }
    createSCs toEnum did scs (createAGs toEnum scId sc.age_groups db1)

/-- Insert the disease row and its whole subtree. -/
def applyCreateDisease (toEnum : String → AgeGroupEnum) (db : DB)
    (p : DiseaseInput) : DB :=
  let did := db.nextId
  createSCs toEnum did p.subcategories
    { db with
        diseases := db.diseases ++ [⟨did, p.name⟩]
        nextId := did + 1 }

/-! ## Disease routes (`webRoutes.ts` lines 261-390) -/

/-- `POST /diseases`: validate (which converts string ids in place), then
`disease.create` with the nested subtree.  Prisma validates the enum
arguments client-side before sending anything, so an invalid group string is
answered with 400 even for a duplicate name; past that, a duplicate name
raises `P2002` (answered 409) at the disease row's insert, which precedes
the nested connects, so it wins over a connect failure (400). -/
def postDisease (db : DB) (inp : DiseaseInput) : Nat × DB :=
  match validateDiseasePayload inp with
  | .error _ => (400, db)
  | .ok p =>
    if groupsOk p.subcategories then
      if db.diseases.any (fun d => d.name == p.name) then (409, db)
      else if connectsOk db p.subcategories then
        (201, applyCreateDisease convGroup db p)
      else (400, db)
    else (400, db)

/-- The three `deleteMany` calls of `PUT /diseases/:id` (and of
`DELETE /disease/:id`): prescribed medicines, then age groups, then
subcategories of the disease, each located through the relation filter. -/
def deleteSubtree (db : DB) (did : Nat) : DB :=
  let pmGone := fun (pm : PrescribedMedicine) =>
    db.ageGroups.any (fun ag =>
      ag.id == pm.ageGroupId &&
      db.subcategories.any (fun sc =>
        sc.id == ag.subcategoryId && sc.diseaseId == did))
  let agGone := fun (ag : AgeGroup) =>
    db.subcategories.any (fun sc =>
      sc.id == ag.subcategoryId && sc.diseaseId == did)
  { db with
      prescribed := db.prescribed.filter (fun pm => !(pmGone pm))
      ageGroups := db.ageGroups.filter (fun ag => !(agGone ag))
      subcategories := db.subcategories.filter (fun sc => !(sc.diseaseId == did)) }

/-- `PUT /diseases/:id`: the three deletes run first and unconditionally;
then `disease.update` recreates the subtree.  The update is a single atomic
database operation, so when it fails (missing disease `P2025`, duplicate
name `P2002`, invalid enum string, failed connect) the handler answers 500
with the deletes already committed. -/
def putDisease (db : DB) (did : Nat) (inp : DiseaseInput) : Nat × DB :=
  let db1 := deleteSubtree db did
  if db1.diseases.any (fun d => d.id == did) &&
     db1.diseases.all (fun d => d.id == did || d.name != inp.name) &&
     payloadOk db1 inp.subcategories then
    let db2 :=
      { db1 with
          diseases := db1.diseases.map (fun d =>
            if d.id == did then { d with name := inp.name } else d) }
    (200, createSCs convGroup did inp.subcategories db2)
  else (500, db1)

/-! ## Bulk routes (`bulk.ts`) -/

/-- `POST /v1/bulk/diseases`: validate every entry first (so a missing name
changes nothing), then `createMany` with `skipDuplicates: true`, which skips
a row whose name collides with an existing disease or with an earlier row of
the same statement.  Each element of the body is reduced to its `name`. -/
def bulkDiseaseStep (acc : DB) (n : String) : DB :=
  if acc.diseases.any (fun d => d.name == n) then acc
  else
    { acc with
        diseases := acc.diseases ++ [⟨acc.nextId, n⟩]
        nextId := acc.nextId + 1 }

def bulkDiseases (db : DB) (names : List String) : Nat × DB :=
  if names.any (fun n => n == "") then (400, db)
  else (201, names.foldl bulkDiseaseStep db)

/-- The own keys of the `groupMap` object literal (`bulk.ts` lines
134-147). -/
def groupMap : List (String × AgeGroupEnum) :=
  [("Child", .CHILD), ("child", .CHILD), ("CHILD", .CHILD),
   ("Teenager", .TEENAGER), ("teenager", .TEENAGER), ("TEENAGER", .TEENAGER),
   ("Adult", .ADULT), ("adult", .ADULT), ("ADULT", .ADULT),
   ("Older", .OLDER), ("older", .OLDER), ("OLDER", .OLDER)]

/-- The members a JavaScript object literal inherits from
`Object.prototype`: reading one of these keys yields a truthy function or
object, not `undefined`. -/
def objectProtoKeys : List String :=
  ["constructor", "hasOwnProperty", "isPrototypeOf", "propertyIsEnumerable",
   "toLocaleString", "toString", "valueOf",
   "__defineGetter__", "__defineSetter__", "__lookupGetter__",
   "__lookupSetter__", "__proto__"]

/-- The value of `groupMap[group] || AgeGroupEnum.ADULT`: either one of the
enum's values, or the truthy member inherited from `Object.prototype` (for a
key such as `"toString"`), which `||` passes through unchanged. -/
inductive GroupMapResult where
  | enumVal (g : AgeGroupEnum)
  | protoMember
deriving Repr, DecidableEq

/-- `mapGroupToEnum` (`bulk.ts` lines 133-150): JavaScript property access
followed by `|| AgeGroupEnum.ADULT`.  An own key yields its enum value; a
key inherited from `Object.prototype` yields the truthy inherited member;
only genuinely absent keys read `undefined` (falsy) and default to ADULT. -/
def mapGroupToEnum (group : String) : GroupMapResult :=
  match groupMap.find? (fun kv => kv.1 == group) with
  | some kv => .enumVal kv.2
  | none =>
    if group ∈ objectProtoKeys then .protoMember
    else .enumVal .ADULT

def isEnumVal : GroupMapResult → Bool
  | .enumVal _ => true
  | .protoMember => false

/-- The enum value the complex route stores for a group label; under the
`complexClientOk` guard the `protoMember` branch is never reached, so its
value is irrelevant. -/
def complexGroupEnum (g : String) : AgeGroupEnum :=
  match mapGroupToEnum g with
  | .enumVal v => v
  | .protoMember => .ADULT

/-- Prisma's client-side validation for the complex route: every group
converts to an actual enum value (an inherited `Object.prototype` member
does not), and every medicine id is a number and not `NaN`.  A failure here
is a `PrismaClientValidationError` without a `code`, raised before any row
is inserted, so it is rethrown (it is not `P2002`) and answered 400. -/
def complexClientOk (subs : List SCInput) : Bool :=
  subs.all (fun sc =>
    sc.age_groups.all (fun ag =>
      isEnumVal (mapGroupToEnum ag.group) &&
      ag.medicines.all (fun m => (resolveMedId m.medicineId).isSome)))

/-- The server-side connects of the complex route: each resolved medicine id
finds its row (checked after the disease row's insert, hence after the
`P2002` duplicate skip). -/
def connectsFound (db : DB) (subs : List SCInput) : Bool :=
  subs.all (fun sc =>
    sc.age_groups.all (fun ag => ag.medicines.all (fun m =>
      match resolveMedId m.medicineId with
      | some v => db.medicines.any (fun x => x.id == v)
      | none => true)))

/-- `POST /v1/bulk/diseases/complex`: one `disease.create` per entry inside
a loop; the per-entry validation returns 400 immediately (keeping earlier
creations); the create first runs Prisma's client-side validation (whose
failure is rethrown and answered 400), then a `P2002` duplicate is skipped,
and a failed connect is rethrown and answered 400 (earlier creations are
kept in every case). -/
def bulkComplex (db : DB) : List DiseaseInput → Nat × DB
  | [] => (201, db)
  | d :: rest =>
    if d.name == "" then (400, db)
    else if complexClientOk d.subcategories then
      if db.diseases.any (fun x => x.name == d.name) then
        bulkComplex db rest
      else if connectsFound db d.subcategories then
        bulkComplex (applyCreateDisease complexGroupEnum db d) rest
      else (400, db)
    else (400, db)

/-- Uniqueness of disease names (the `Disease_name_key` unique index). -/
def namesUnique (db : DB) : Prop :=
  (db.diseases.map (fun d => d.name)).Nodup

instance (db : DB) : Decidable (namesUnique db) := by
  unfold namesUnique
  infer_instance

/-! ## Reading a disease subtree back (the `include` shape of the GET and
mutation routes: subcategories, their age groups, their prescribed
medicines) -/

/-- One prescribed medicine as the payload describes it:
(medicine id, dosage, notes). -/
abbrev PMView := Int × String × String

/-- One age group: (group, age range, medicines). -/
abbrev AGView := AgeGroupEnum × String × List PMView

/-- One subcategory: (name, age groups). -/
abbrev SCView := String × List AGView

def pmTree (db : DB) (agId : Nat) : List PMView :=
  (db.prescribed.filter (fun pm => pm.ageGroupId == agId)).map
    (fun pm => (pm.medicineId, pm.dosage, pm.notes))

def agTree (db : DB) (scId : Nat) : List AGView :=
  (db.ageGroups.filter (fun ag => ag.subcategoryId == scId)).map
    (fun ag => (ag.group, ag.ageRange, pmTree db ag.id))

def scTree (db : DB) (did : Nat) : List SCView :=
  (db.subcategories.filter (fun sc => sc.diseaseId == did)).map
    (fun sc => (sc.name, agTree db sc.id))

def diseaseTree (db : DB) (did : Nat) : Option (String × List SCView) :=
  (db.diseases.find? (fun d => d.id == did)).map
    (fun d => (d.name, scTree db did))

/-! ## What the payload describes (the spec side of the replacement claim) -/

/-- A payload medicine, with the handler's conversions: string ids parsed,
`notes` defaulting to the empty string. -/
def medSpec (m : MedInput) : PMView :=
  ((resolveMedId m.medicineId).getD 0, m.dosage, m.notes.getD "")

def agSpec (toEnum : String → AgeGroupEnum) (ag : AGInput) : AGView :=
  (toEnum ag.group, ag.age_range, ag.medicines.map medSpec)

def scSpec (toEnum : String → AgeGroupEnum) (sc : SCInput) : SCView :=
  (sc.name, sc.age_groups.map (agSpec toEnum))

/-! ## Database well-formedness

Ids are allocated from the SERIAL sequences, so every stored id (and every
foreign key, which must have referenced an allocated id) is below the
counter, and each table's primary keys are distinct. -/

def Bounded (db : DB) : Prop :=
  (∀ sc ∈ db.subcategories, sc.id < db.nextId) ∧
  (∀ ag ∈ db.ageGroups, ag.id < db.nextId ∧ ag.subcategoryId < db.nextId) ∧
  (∀ pm ∈ db.prescribed, pm.ageGroupId < db.nextId)

def NodupIds (db : DB) : Prop :=
  (db.subcategories.map (fun sc => sc.id)).Nodup ∧
  (db.ageGroups.map (fun ag => ag.id)).Nodup

def WF (db : DB) : Prop := Bounded db ∧ NodupIds db

instance (db : DB) : Decidable (Bounded db) := by
  unfold Bounded
  infer_instance

instance (db : DB) : Decidable (NodupIds db) := by
  unfold NodupIds
  infer_instance

instance (db : DB) : Decidable (WF db) := by
  unfold WF
  infer_instance

/-! ## Client-side bed search (`handleSearch` in the bed-management
component) -/

/-- What the component keeps of a bed: `type`, `status` and the optional
`department?.name`. -/
structure ClientBed where
  type : String
  status : String
  department : Option String
deriving Repr, DecidableEq

/-- `needle` starts `hay`. -/
def isPre : List Char → List Char → Bool
  | [], _ => true
  | _ :: _, [] => false
  | c :: cs, d :: ds => c == d && isPre cs ds

/-- `hay` has `needle` as a contiguous subsequence. -/
def hasSub (needle : List Char) : List Char → Bool
  | [] => needle.isEmpty
  | c :: cs => isPre needle (c :: cs) || hasSub needle cs

/-- JavaScript `hay.includes(needle)`. -/
def includesStr (hay needle : String) : Bool :=
  hasSub needle.data hay.data

/-- JavaScript `toLowerCase()` on the character range the repository uses. -/
def jsToLower (s : String) : String :=
  ⟨s.data.map Char.toLower⟩

/-- JavaScript `trim()`: strip leading and trailing whitespace. -/
def jsTrim (s : String) : String :=
  ⟨((s.data.dropWhile Char.isWhitespace).reverse.dropWhile Char.isWhitespace).reverse⟩

/-- The third disjunct of the filter:
`bed.department?.name && bed.department.name.toLowerCase().includes(...)`
(a missing department, and the falsy empty name, yield false). -/
def deptMatch (dept : Option String) (searchTerm : String) : Bool :=
  match dept with
  | some n => !(n == "") && includesStr (jsToLower n) (jsToLower searchTerm)
  | none => false

/-- The `handleSearch` effect (`useEffect` on `[beds, searchTerm]`): a
whitespace-only term restores the full list, otherwise a case-insensitive
`includes` filter over type, status and department name. -/
def handleSearch (beds : List ClientBed) (searchTerm : String) : List ClientBed :=
  if jsTrim searchTerm == "" then beds
  else
    beds.filter (fun bed =>
      includesStr (jsToLower bed.type) (jsToLower searchTerm) ||
      includesStr (jsToLower bed.status) (jsToLower searchTerm) ||
      deptMatch bed.department searchTerm)

/-- The claim's matching notion: `hay` contains `needle` case-insensitively
as a substring. -/
def containsCI (hay needle : String) : Prop :=
  ∃ l r, (jsToLower hay).data = l ++ (jsToLower needle).data ++ r

/-- The claim's filter predicate: the term occurs in the bed's type, status
or department name. -/
def matchesTerm (bed : ClientBed) (term : String) : Prop :=
  containsCI bed.type term ∨ containsCI bed.status term ∨
    ∃ n, bed.department = some n ∧ containsCI n term

/-! ## Substring lemmas -/

theorem isPre_iff (n h : List Char) : isPre n h = true ↔ ∃ t, h = n ++ t := by
  induction n generalizing h with
  | nil => simp [isPre]
  | cons c cs ih =>
    cases h with
    | nil =>
      simp only [isPre]
      constructor
      · intro hfalse
        cases hfalse
      · rintro ⟨t, ht⟩
        cases ht
    | cons d ds =>
      simp only [isPre, Bool.and_eq_true, beq_iff_eq, ih, List.cons_append,
        List.cons.injEq]
      constructor
      · rintro ⟨rfl, t, rfl⟩
        exact ⟨t, rfl, rfl⟩
      · rintro ⟨t, rfl, rfl⟩
        exact ⟨rfl, t, rfl⟩

theorem hasSub_iff (n h : List Char) :
    hasSub n h = true ↔ ∃ l r, h = l ++ n ++ r := by
  induction h with
  | nil =>
    simp only [hasSub, List.isEmpty_iff]
    constructor
    · rintro rfl
      exact ⟨[], [], rfl⟩
    · rintro ⟨l, r, hr⟩
      rcases List.append_eq_nil.mp (List.append_eq_nil.mp hr.symm).1 with ⟨-, h2⟩
      exact h2
  | cons c cs ih =>
    simp only [hasSub, Bool.or_eq_true, isPre_iff, ih]
    constructor
    · rintro (⟨t, ht⟩ | ⟨l, r, hr⟩)
      · exact ⟨[], t, by simp [ht]⟩
      · exact ⟨c :: l, r, by simp [hr]⟩
    · rintro ⟨l, r, hr⟩
      cases l with
      | nil =>
        exact Or.inl ⟨r, by simpa using hr⟩
      | cons x xs =>
        rw [List.cons_append, List.cons_append] at hr
        injection hr with h1 h2
        exact Or.inr ⟨xs, r, h2⟩

instance (hay needle : String) : Decidable (containsCI hay needle) :=
  decidable_of_iff
    (hasSub (jsToLower needle).data (jsToLower hay).data = true)
    (hasSub_iff _ _)

instance (o : Option String) (term : String) :
    Decidable (∃ n, o = some n ∧ containsCI n term) :=
  match o with
  | none => isFalse (by rintro ⟨n, hn, -⟩; cases hn)
  | some v =>
    decidable_of_iff (containsCI v term)
      ⟨fun hc => ⟨v, rfl, hc⟩, fun ⟨n, hn, hc⟩ => by cases hn; exact hc⟩

instance (bed : ClientBed) (term : String) : Decidable (matchesTerm bed term) := by
  unfold matchesTerm
  infer_instance

theorem includes_eq_decide (hay needle : String) :
    includesStr (jsToLower hay) (jsToLower needle) = decide (containsCI hay needle) := by
  by_cases hc : containsCI hay needle
  · have h1 : hasSub (jsToLower needle).data (jsToLower hay).data = true :=
      (hasSub_iff _ _).mpr hc
    simp [includesStr, h1, hc]
  · have h1 : hasSub (jsToLower needle).data (jsToLower hay).data ≠ true :=
      fun h => hc ((hasSub_iff _ _).mp h)
    rw [includesStr, decide_eq_false hc]
    exact Bool.eq_false_iff.mpr h1

theorem containsCI_empty_hay (needle : String) (h : needle ≠ "") :
    ¬ containsCI "" needle := by
  rintro ⟨l, r, hr⟩
  have hd : needle.data ≠ [] := fun hnil => h (by cases needle; simp_all)
  have : (jsToLower needle).data = [] := by
    rcases List.append_eq_nil.mp (List.append_eq_nil.mp hr.symm).1 with ⟨-, h2⟩
    exact h2
  simp only [jsToLower, List.map_eq_nil_iff] at this
  exact hd this

theorem deptMatch_eq_decide (dept : Option String) (term : String)
    (hterm : term ≠ "") :
    deptMatch dept term = decide (∃ n, dept = some n ∧ containsCI n term) := by
  rcases dept with _ | n
  · simp [deptMatch]
  · rw [show deptMatch (some n) term
        = (!(n == "") && includesStr (jsToLower n) (jsToLower term)) from rfl]
    by_cases hn : n = ""
    · subst hn
      have h3 : ¬ containsCI "" term := containsCI_empty_hay term hterm
      simp [h3]
    · rw [includes_eq_decide]
      by_cases hc : containsCI n term <;> simp [hn, hc]

/-- C10: for a term that is not whitespace-only, the bed filter returns
exactly (and in order) the beds whose type, status or department name
contains the term case-insensitively; a whitespace-only term gives back the
full list. -/
theorem handleSearch_spec (beds : List ClientBed) (term : String) :
    (jsTrim term ≠ "" →
      handleSearch beds term = beds.filter (fun b => decide (matchesTerm b term))) ∧
    (jsTrim term = "" → handleSearch beds term = beds) := by
  constructor
  · intro hne
    have hterm : term ≠ "" := by
      rintro rfl
      exact hne rfl
    rw [handleSearch, if_neg (by simpa using hne)]
    apply List.filter_congr
    intro b _
    rw [includes_eq_decide, includes_eq_decide, deptMatch_eq_decide _ _ hterm]
    by_cases h1 : containsCI b.type term <;>
      by_cases h2 : containsCI b.status term <;>
      by_cases h3 : ∃ n, b.department = some n ∧ containsCI n term <;>
      simp [matchesTerm, h1, h2, h3]
  · intro he
    rw [handleSearch, if_pos (by simpa using he)]

/-- Witness for C10 at a concrete bed list and term. -/
theorem handleSearch_spec_witness :
    jsTrim " Free " ≠ "" ∧
    handleSearch
      [⟨"ICU", "FREE", some "Cardio"⟩, ⟨"General", "OCCUPIED", none⟩]
      " Free " =
      [⟨"ICU", "FREE", some "Cardio"⟩, ⟨"General", "OCCUPIED", none⟩].filter
        (fun b => decide (matchesTerm b " Free ")) := by
  refine ⟨by decide, ?_⟩
  exact (handleSearch_spec
    [⟨"ICU", "FREE", some "Cardio"⟩, ⟨"General", "OCCUPIED", none⟩]
    " Free ").1 (by decide)

/-! ## C9: the age-group label mapping of the complex bulk route -/

/-- A medicine catalog and no diseases, for the C9 counterexample. -/
def dbC9 : DB :=
  { emptyDB with medicines := [⟨1, "Para", "tab", "500", "mg"⟩], nextId := 2 }

/-- Counterexample to C9: `"toString"` is not one of the twelve recognized
labels, yet `groupMap["toString"]` finds the truthy member inherited from
`Object.prototype`, so `mapGroupToEnum` does not return ADULT there — and
the complex bulk create, far from silently storing ADULT, fails client-side
and answers 400 storing nothing. -/
theorem mapGroupToEnum_counterexample :
    "toString" ∉ groupMap.map (fun kv => kv.1) ∧
    mapGroupToEnum "toString" ≠ .enumVal .ADULT ∧
    (bulkComplex dbC9
      [⟨"Measles", [⟨"Mild", [⟨"toString", "0-5", [⟨.num 1, "1x", none⟩]⟩]⟩]⟩]).1
      = 400 ∧
    (bulkComplex dbC9
      [⟨"Measles", [⟨"Mild", [⟨"toString", "0-5", [⟨.num 1, "1x", none⟩]⟩]⟩]⟩]).2
      = dbC9 := by
  decide

/-- C9 (amended): `mapGroupToEnum` sends each of the twelve recognized case
variants to its enum value and every other string that is not an inherited
`Object.prototype` key — for example `kid` or `Toddler` — silently to
`ADULT`; a string naming an `Object.prototype` member, such as `toString`,
instead returns the truthy inherited member, so the complex route rejects it
with 400 rather than storing ADULT. -/
theorem mapGroupToEnum_spec :
    (mapGroupToEnum "Child" = .enumVal .CHILD ∧
     mapGroupToEnum "child" = .enumVal .CHILD ∧
     mapGroupToEnum "CHILD" = .enumVal .CHILD ∧
     mapGroupToEnum "Teenager" = .enumVal .TEENAGER ∧
     mapGroupToEnum "teenager" = .enumVal .TEENAGER ∧
     mapGroupToEnum "TEENAGER" = .enumVal .TEENAGER ∧
     mapGroupToEnum "Adult" = .enumVal .ADULT ∧
     mapGroupToEnum "adult" = .enumVal .ADULT ∧
     mapGroupToEnum "ADULT" = .enumVal .ADULT ∧
     mapGroupToEnum "Older" = .enumVal .OLDER ∧
     mapGroupToEnum "older" = .enumVal .OLDER ∧
     mapGroupToEnum "OLDER" = .enumVal .OLDER) ∧
    (∀ s : String, s ∉ groupMap.map (fun kv => kv.1) → s ∉ objectProtoKeys →
      mapGroupToEnum s = .enumVal .ADULT) ∧
    mapGroupToEnum "kid" = .enumVal .ADULT ∧
    mapGroupToEnum "Toddler" = .enumVal .ADULT ∧
    mapGroupToEnum "toString" = .protoMember := by
  refine ⟨by decide, ?_, by decide, by decide, by decide⟩
  intro s hs hp
  have h : groupMap.find? (fun kv => kv.1 == s) = none := by
    rw [List.find?_eq_none]
    intro kv hkv
    simp only [beq_iff_eq]
    intro he
    exact hs (he ▸ List.mem_map_of_mem _ hkv)
  simp [mapGroupToEnum, h, hp]

/-- Witness for the amended C9 at a concrete unrecognized label. -/
theorem mapGroupToEnum_spec_witness :
    "kid" ∉ groupMap.map (fun kv => kv.1) ∧ "kid" ∉ objectProtoKeys ∧
    mapGroupToEnum "kid" = .enumVal .ADULT :=
  ⟨by decide, by decide, mapGroupToEnum_spec.2.1 "kid" (by decide) (by decide)⟩

/-! ## C3: deleting a medicine is blocked by references -/

/-- C3: `DELETE /medicines/:id` answers 400 and changes nothing whenever a
prescription or an inventory record references the medicine; with no
references it deletes an existing medicine (touching nothing else) and
answers 404 for a missing one. -/
theorem deleteMedicine_spec (db : DB) (mid : Int) :
    (((∃ pm ∈ db.prescribed, pm.medicineId = mid) ∨
      (∃ inv ∈ db.inventory, inv.medicineId = mid)) →
        deleteMedicine db mid = (400, db)) ∧
    ((∀ pm ∈ db.prescribed, pm.medicineId ≠ mid) →
     (∀ inv ∈ db.inventory, inv.medicineId ≠ mid) →
      (((∃ m ∈ db.medicines, m.id = mid) →
          deleteMedicine db mid =
            (200, { db with
                      medicines := db.medicines.filter (fun m => !(m.id == mid)) })) ∧
       ((∀ m ∈ db.medicines, m.id ≠ mid) → deleteMedicine db mid = (404, db)))) := by
  have hp : (0 < (db.prescribed.filter (fun pm => pm.medicineId == mid)).length) ↔
      ∃ pm ∈ db.prescribed, pm.medicineId = mid := by
    rw [List.length_pos, Ne, List.filter_eq_nil_iff]
    push_neg
    simp
  have hi : (0 < (db.inventory.filter (fun i => i.medicineId == mid)).length) ↔
      ∃ inv ∈ db.inventory, inv.medicineId = mid := by
    rw [List.length_pos, Ne, List.filter_eq_nil_iff]
    push_neg
    simp
  constructor
  · rintro (h | h)
    · rw [deleteMedicine]
      simp only [if_pos (hp.mpr h)]
    · rw [deleteMedicine]
      by_cases h0 : 0 < (db.prescribed.filter (fun pm => pm.medicineId == mid)).length
      · simp only [if_pos h0]
      · simp only [if_neg h0, if_pos (hi.mpr h)]
  · intro hnp hni
    have h0 : ¬ 0 < (db.prescribed.filter (fun pm => pm.medicineId == mid)).length := by
      rw [hp]
      rintro ⟨pm, hm, he⟩
      exact hnp pm hm he
    have h1 : ¬ 0 < (db.inventory.filter (fun i => i.medicineId == mid)).length := by
      rw [hi]
      rintro ⟨inv, hm, he⟩
      exact hni inv hm he
    constructor
    · rintro ⟨m, hm, he⟩
      have hany : db.medicines.any (fun m => m.id == mid) = true :=
        List.any_eq_true.mpr ⟨m, hm, by simpa using he⟩
      rw [deleteMedicine]
      simp only [if_neg h0, if_neg h1, hany, if_true]
    · intro hno
      have : ¬ db.medicines.any (fun m => m.id == mid) = true := by
        rw [List.any_eq_true]
        rintro ⟨m, hm, he⟩
        exact hno m hm (by simpa using he)
      rw [deleteMedicine]
      simp only [if_neg h0, if_neg h1, if_neg this]

/-- Witness for C3: a referenced medicine is protected, at concrete data. -/
theorem deleteMedicine_spec_witness :
    (∃ pm ∈ ([⟨7, 3, 1, "1x", ""⟩] : List PrescribedMedicine), pm.medicineId = 1) ∧
    deleteMedicine
      { emptyDB with
          medicines := [⟨1, "Para", "tab", "500", "mg"⟩]
          prescribed := [⟨7, 3, 1, "1x", ""⟩], nextId := 8 } 1 =
      (400, { emptyDB with
                medicines := [⟨1, "Para", "tab", "500", "mg"⟩]
                prescribed := [⟨7, 3, 1, "1x", ""⟩], nextId := 8 }) := by
  refine ⟨by decide, ?_⟩
  exact (deleteMedicine_spec _ 1).1 (Or.inl (by decide))

/-! ## C6: the `POST /staff` case analysis -/

/-- C6: for requests whose `departmentId`, when present, is a real
(positive) id, `POST /staff` answers 400 `departmentId required` exactly for
a non-nurse without a department, 400 `nurse cannot be linked to department`
exactly for a nurse with one, leaves the state untouched whenever it does
not answer 201, and otherwise (given the department exists) creates the
record with 201, `isAvailable` defaulting to true. -/
theorem postStaff_spec (db : DB) (r : StaffCreateReq)
    (hr : ∀ d ∈ r.departmentId, 0 < d) :
    (((postStaff db r).1 = 400 ∧ (postStaff db r).2.1 = "departmentId required") ↔
      (r.specialization ≠ "nurse" ∧ r.departmentId = none)) ∧
    (((postStaff db r).1 = 400 ∧
      (postStaff db r).2.1 = "nurse cannot be linked to department") ↔
      (r.specialization = "nurse" ∧ r.departmentId ≠ none)) ∧
    ((postStaff db r).1 ≠ 201 → (postStaff db r).2.2 = db) ∧
    ((r.specialization = "nurse" → r.departmentId = none) →
     (r.specialization ≠ "nurse" → r.departmentId ≠ none) →
     (∀ d ∈ r.departmentId, db.departments.any (fun x => x.id == d) = true) →
       ((postStaff db r).1 = 201 ∧
        (postStaff db r).2.2.staff =
          db.staff ++ [⟨db.nextId, r.name, r.specialization, r.departmentId,
            r.isAvailable.getD true⟩])) := by
  rcases hd : r.departmentId with _ | d
  · by_cases hn : r.specialization = "nurse"
    · -- nurse, no department: creates
      refine ⟨?_, ?_, ?_, ?_⟩
      · simp [postStaff, hn, hd, jsFalsyId]
      · simp [postStaff, hn, hd, jsFalsyId]
      · intro habs
        exact absurd (by simp [postStaff, hn, hd, jsFalsyId]) habs
      · intro _ _ _
        simp [postStaff, hn, hd, jsFalsyId]
    · -- non-nurse without department: rejected
      refine ⟨?_, ?_, ?_, ?_⟩
      · simp [postStaff, hn, hd, jsFalsyId]
      · simp [postStaff, hn, hd, jsFalsyId]
      · intro _
        simp [postStaff, hn, hd, jsFalsyId]
      · intro _ h2 _
        exact absurd rfl (h2 hn)
  · have hdne : d ≠ 0 := Nat.pos_iff_ne_zero.mp (hr d (by simp [hd]))
    by_cases hn : r.specialization = "nurse"
    · -- nurse with a department: rejected
      refine ⟨?_, ?_, ?_, ?_⟩
      · simp [postStaff, hn, hd, jsFalsyId, hdne]
      · simp [postStaff, hn, hd, jsFalsyId, hdne]
      · intro _
        simp [postStaff, hn, hd, jsFalsyId, hdne]
      · intro h1 _ _
        exact Option.noConfusion (h1 hn)
    · -- non-nurse with department: creates when the FK holds
      by_cases hfk : db.departments.any (fun x => x.id == d) = true
      · refine ⟨?_, ?_, ?_, ?_⟩
        · simp [postStaff, hn, hd, jsFalsyId, hdne, hfk]
        · simp [postStaff, hn, hd, jsFalsyId, hdne, hfk]
        · intro habs
          exact absurd (by simp [postStaff, hn, hd, jsFalsyId, hdne, hfk]) habs
        · intro _ _ _
          simp [postStaff, hn, hd, jsFalsyId, hdne, hfk]
      · refine ⟨?_, ?_, ?_, ?_⟩
        · simp [postStaff, hn, hd, jsFalsyId, hdne, hfk]
        · simp [postStaff, hn, hd, jsFalsyId, hdne, hfk]
        · intro _
          simp [postStaff, hn, hd, jsFalsyId, hdne, hfk]
        · intro _ _ h3
          exact absurd (h3 d (by simp [hd])) hfk

/-- Witness for C6: a doctor with an existing department is created. -/
theorem postStaff_spec_witness :
    ((postStaff { emptyDB with departments := [⟨1, "Cardio"⟩], nextId := 2 }
        ⟨"Ana", "doctor", some 1, none⟩).1 = 201 ∧
     (postStaff { emptyDB with departments := [⟨1, "Cardio"⟩], nextId := 2 }
        ⟨"Ana", "doctor", some 1, none⟩).2.2.staff =
       [⟨2, "Ana", "doctor", some 1, true⟩]) := by
  have h := (postStaff_spec
    { emptyDB with departments := [⟨1, "Cardio"⟩], nextId := 2 }
    ⟨"Ana", "doctor", some 1, none⟩ (by decide)).2.2.2
    (by decide) (by decide) (by decide)
  simpa using h

/-! ## C7: bed statuses stay in the enum domain -/

theorem parseBedStatus_isSome (s : String) :
    (parseBedStatus s).isSome = true ↔ bedStatusValid s := by
  unfold parseBedStatus bedStatusValid
  split_ifs with h1 h2 h3 <;> simp_all

/-- C7: both bed write routes preserve the status domain
{FREE, OCCUPIED, MAINTENANCE}, and a request carrying a status outside the
domain is answered 400 with the state unchanged — so no stored bed ever
carries such a status. -/
theorem bedStatus_invariant (db : DB) (r : BedCreateReq) (bid : Nat)
    (ru : BedUpdateReq) (h : bedsStatusOk db) :
    bedsStatusOk (postBed db r).2 ∧ bedsStatusOk (putBed db bid ru).2 ∧
    (∀ s, r.status = some s → ¬ bedStatusValid s →
      (postBed db r).1 = 400 ∧ (postBed db r).2 = db) ∧
    (∀ s, ru.status = some s → ¬ bedStatusValid s →
      (putBed db bid ru).1 = 400 ∧ (putBed db bid ru).2 = db) := by
  refine ⟨?_, ?_, ?_, ?_⟩
  · rw [postBed]
    split_ifs with h1
    · exact h
    · rcases hs : r.status with _ | s <;> rcases hd : r.departmentId with _ | d <;>
        simp only []
      · exact h
      · exact h
      · exact h
      · split_ifs with h2
        · intro b hb
          rcases List.mem_append.mp hb with hold | hnew
          · exact h b hold
          · rcases List.mem_singleton.mp hnew with rfl
            exact (parseBedStatus_isSome s).mp ((Bool.and_eq_true _ _) ▸ h2).1
        · exact h
  · rw [putBed]
    split_ifs with h1 h2
    · intro b hb
      rcases List.mem_map.mp hb with ⟨b0, hb0, rfl⟩
      split_ifs with hid
      · rcases hs : ru.status with _ | s
        · simpa [hs] using h b0 hb0
        · have := ((Bool.and_eq_true _ _) ▸ h2).1
          rw [hs] at this
          simpa [hs] using (parseBedStatus_isSome s).mp this
      · exact h b0 hb0
    · exact h
    · exact h
  · intro s hs hbad
    rw [postBed]
    split_ifs with h1
    · exact ⟨by trivial, by trivial⟩
    · rcases hd : r.departmentId with _ | d <;> simp only [hs]
      · exact ⟨by trivial, by trivial⟩
      · have : (parseBedStatus s).isSome = false := by
          rcases hps : (parseBedStatus s).isSome with _ | _
          · rfl
          · exact absurd ((parseBedStatus_isSome s).mp hps) hbad
        rw [this]
        simp
  · intro s hs hbad
    rw [putBed]
    split_ifs with h1 h2
    · exfalso
      have := ((Bool.and_eq_true _ _) ▸ h2).1
      rw [hs] at this
      exact hbad ((parseBedStatus_isSome s).mp this)
    · exact ⟨rfl, rfl⟩
    · exact ⟨rfl, rfl⟩

/-- Witness for C7: concrete requests with status `BROKEN` change nothing. -/
theorem bedStatus_invariant_witness :
    bedsStatusOk { emptyDB with departments := [⟨1, "ER"⟩], nextId := 2 } ∧
    ¬ bedStatusValid "BROKEN" ∧
    (postBed { emptyDB with departments := [⟨1, "ER"⟩], nextId := 2 }
      ⟨"ICU", some "BROKEN", some 1⟩).1 = 400 ∧
    (postBed { emptyDB with departments := [⟨1, "ER"⟩], nextId := 2 }
      ⟨"ICU", some "BROKEN", some 1⟩).2 =
      { emptyDB with departments := [⟨1, "ER"⟩], nextId := 2 } := by
  have h := bedStatus_invariant
    { emptyDB with departments := [⟨1, "ER"⟩], nextId := 2 }
    ⟨"ICU", some "BROKEN", some 1⟩ 0 ⟨none, none, none⟩ (by decide)
  exact ⟨by decide, by decide,
    (h.2.2.1 "BROKEN" rfl (by decide)).1, (h.2.2.1 "BROKEN" rfl (by decide)).2⟩

/-! ## C8: shape of payloads `validateDiseasePayload` rejects -/

/-- The claim's per-medicine violation: missing (falsy) `medicineId` or
`dosage`, or a string `medicineId` that does not parse to a number
greater than 0. -/
def medBad (m : MedInput) : Prop :=
  medIdFalsy m.medicineId = true ∨ m.dosage = "" ∨
    ∃ s, m.medicineId = .str s ∧ ¬∃ n : Int, jsParseInt s = some n ∧ 0 < n

/-- The claim's per-age-group violation. -/
def agBad (ag : AGInput) : Prop :=
  ag.group = "" ∨ ag.age_range = "" ∨ ag.medicines = [] ∨
    ∃ m ∈ ag.medicines, medBad m

/-- The claim's per-subcategory violation. -/
def scBad (sc : SCInput) : Prop :=
  sc.name = "" ∨ sc.age_groups = [] ∨ ∃ ag ∈ sc.age_groups, agBad ag

/-- The claim's payload-shape violation. -/
def violatesShape (p : DiseaseInput) : Prop :=
  p.name = "" ∨ p.subcategories = [] ∨ ∃ sc ∈ p.subcategories, scBad sc

instance (o : Option Int) : Decidable (∃ n : Int, o = some n ∧ 0 < n) :=
  match o with
  | none => isFalse (by rintro ⟨n, hn, -⟩; cases hn)
  | some v =>
    decidable_of_iff (0 < v)
      ⟨fun h => ⟨v, rfl, h⟩, fun ⟨n, hn, h⟩ => by cases hn; exact h⟩

instance (m : MedId) (P : String → Prop) [∀ s, Decidable (P s)] :
    Decidable (∃ s, m = .str s ∧ P s) :=
  match m with
  | .num n => isFalse (by rintro ⟨s, hs, -⟩; cases hs)
  | .str s =>
    decidable_of_iff (P s)
      ⟨fun h => ⟨s, rfl, h⟩, fun ⟨t, ht, h⟩ => by cases ht; exact h⟩

instance (m : MedInput) : Decidable (medBad m) := by
  unfold medBad
  infer_instance

instance (ag : AGInput) : Decidable (agBad ag) := by
  unfold agBad
  infer_instance

instance (sc : SCInput) : Decidable (scBad sc) := by
  unfold scBad
  infer_instance

instance (p : DiseaseInput) : Decidable (violatesShape p) := by
  unfold violatesShape
  infer_instance

/-- The in-place conversion the validator performs on a medicine:
`m.medicineId = parseInt(m.medicineId)` for strings. -/
def convertMed (m : MedInput) : MedInput :=
  match m.medicineId with
  | .str s => { m with medicineId := .num ((jsParseInt s).getD 0) }
  | .num _ => m

def convertAG (ag : AGInput) : AGInput :=
  { ag with medicines := ag.medicines.map convertMed }

def convertSC (sc : SCInput) : SCInput :=
  { sc with age_groups := sc.age_groups.map convertAG }

def convertPayload (p : DiseaseInput) : DiseaseInput :=
  { p with subcategories := p.subcategories.map convertSC }

theorem validateMeds_ok (ms : List MedInput) (h : ∀ m ∈ ms, ¬ medBad m) :
    validateMeds ms = .ok (ms.map convertMed) := by
  induction ms with
  | nil => rfl
  | cons m ms ih =>
    have hm := h m (by simp)
    rw [medBad, not_or, not_or] at hm
    obtain ⟨h1, h2, h3⟩ := hm
    have hfalsy : medIdFalsy m.medicineId = false := by
      simpa using h1
    have hdos : (m.dosage == "") = false := by
      simpa using h2
    have htail := ih (fun x hx => h x (by simp [hx]))
    rw [validateMeds, hfalsy, hdos]
    rcases hmid : m.medicineId with n | s
    · simp only [hmid, Bool.or_self, Bool.false_eq_true, if_false, htail,
        List.map_cons]
      simp [convertMed, hmid]
    · have hs : ∃ n : Int, jsParseInt s = some n ∧ 0 < n := by
        by_contra hno
        exact h3 ⟨s, hmid, hno⟩
      obtain ⟨n, hn, hpos⟩ := hs
      simp only [hmid, Bool.or_self, Bool.false_eq_true, if_false, hn, htail,
        List.map_cons]
      rw [if_neg (by omega)]
      simp [convertMed, hmid, hn]

theorem validateMeds_err (ms : List MedInput) (h : ∃ m ∈ ms, medBad m) :
    ∃ e, validateMeds ms = .error e := by
  induction ms with
  | nil => simp at h
  | cons m ms ih =>
    by_cases hm : medBad m
    · rw [validateMeds]
      by_cases hf : (medIdFalsy m.medicineId || m.dosage == "") = true
      · rw [hf]
        exact ⟨_, rfl⟩
      · rw [Bool.not_eq_true] at hf
        rw [hf]
        rcases hm with h1 | h2 | h3
        · exact absurd h1 (by simpa using (Bool.or_eq_false_iff.mp hf).1)
        · exact absurd (by simpa using h2)
            (by simpa using congrArg (fun b => b = true) (Bool.or_eq_false_iff.mp hf).2)
        · obtain ⟨s, hs, hbad⟩ := h3
          rcases hn : jsParseInt s with _ | n
          · simp only [hs, hn, Bool.false_eq_true, if_false]
            exact ⟨_, rfl⟩
          · have hle : n ≤ 0 := by
              by_contra hgt
              exact hbad ⟨n, hn, by omega⟩
            simp only [hs, hn, Bool.false_eq_true, if_false, if_pos hle]
            exact ⟨_, rfl⟩
    · have htail : ∃ x ∈ ms, medBad x := by
        rcases h with ⟨x, hx, hbadx⟩
        rcases List.mem_cons.mp hx with rfl | hxs
        · exact absurd hbadx hm
        · exact ⟨x, hxs, hbadx⟩
      obtain ⟨e, he⟩ := ih htail
      rw [medBad, not_or, not_or] at hm
      obtain ⟨h1, h2, h3⟩ := hm
      rw [validateMeds, show medIdFalsy m.medicineId = false by simpa using h1,
        show (m.dosage == "") = false by simpa using h2]
      rcases hmid : m.medicineId with n | s
      · simp only [hmid, Bool.or_self, Bool.false_eq_true, if_false, he]
        exact ⟨e, rfl⟩
      · have hse : ∃ n : Int, jsParseInt s = some n ∧ 0 < n := by
          by_contra hno
          exact h3 ⟨s, hmid, hno⟩
        obtain ⟨n, hn, hpos⟩ := hse
        simp only [hmid, Bool.or_self, Bool.false_eq_true, if_false, hn, he]
        rw [if_neg (by omega)]
        exact ⟨e, rfl⟩

theorem validateAGs_ok (ags : List AGInput) (h : ∀ ag ∈ ags, ¬ agBad ag) :
    validateAGs ags = .ok (ags.map convertAG) := by
  induction ags with
  | nil => rfl
  | cons ag ags ih =>
    have hag := h ag (by simp)
    rw [agBad, not_or, not_or, not_or] at hag
    obtain ⟨h1, h2, h3, h4⟩ := hag
    have hgr : (ag.group == "") = false := by simpa using h1
    have har : (ag.age_range == "") = false := by simpa using h2
    have hne : ag.medicines.isEmpty = false := by
      simpa [List.isEmpty_iff] using h3
    have hmeds : validateMeds ag.medicines = .ok (ag.medicines.map convertMed) :=
      validateMeds_ok _ (by simpa using h4)
    have htail := ih (fun x hx => h x (by simp [hx]))
    rw [validateAGs, hgr, har, hne]
    simp only [Bool.or_self, Bool.false_eq_true, if_false, hmeds, htail,
      List.map_cons]
    rfl

theorem validateAGs_err (ags : List AGInput) (h : ∃ ag ∈ ags, agBad ag) :
    ∃ e, validateAGs ags = .error e := by
  induction ags with
  | nil => simp at h
  | cons ag ags ih =>
    by_cases hag : agBad ag
    · rw [validateAGs]
      by_cases hf : (ag.group == "" || ag.age_range == "") = true
      · rw [hf]
        exact ⟨_, rfl⟩
      · rw [Bool.not_eq_true] at hf
        rw [hf]
        by_cases hemp : ag.medicines.isEmpty = true
        · rw [hemp]
          simp only [Bool.false_eq_true, if_false, if_true]
          exact ⟨_, rfl⟩
        · rw [Bool.not_eq_true] at hemp
          rw [hemp]
          rcases hag with h1 | h2 | h3 | h4
          · exact absurd (by simpa using h1)
              (by simpa using (Bool.or_eq_false_iff.mp hf).1)
          · exact absurd (by simpa using h2)
              (by simpa using (Bool.or_eq_false_iff.mp hf).2)
          · exact absurd h3 (by simpa [List.isEmpty_iff] using hemp)
          · obtain ⟨e, he⟩ := validateMeds_err ag.medicines h4
            simp only [Bool.false_eq_true, if_false, he]
            exact ⟨e, rfl⟩
    · have htail : ∃ x ∈ ags, agBad x := by
        rcases h with ⟨x, hx, hbadx⟩
        rcases List.mem_cons.mp hx with rfl | hxs
        · exact absurd hbadx hag
        · exact ⟨x, hxs, hbadx⟩
      obtain ⟨e, he⟩ := ih htail
      rw [agBad, not_or, not_or, not_or] at hag
      obtain ⟨h1, h2, h3, h4⟩ := hag
      have hmeds : validateMeds ag.medicines = .ok (ag.medicines.map convertMed) :=
        validateMeds_ok _ (by simpa using h4)
      rw [validateAGs, show (ag.group == "") = false by simpa using h1,
        show (ag.age_range == "") = false by simpa using h2,
        show ag.medicines.isEmpty = false by simpa [List.isEmpty_iff] using h3]
      simp only [Bool.or_self, Bool.false_eq_true, if_false, hmeds, he]
      exact ⟨e, rfl⟩

theorem validateSCs_ok (scs : List SCInput) (h : ∀ sc ∈ scs, ¬ scBad sc) :
    validateSCs scs = .ok (scs.map convertSC) := by
  induction scs with
  | nil => rfl
  | cons sc scs ih =>
    have hsc := h sc (by simp)
    rw [scBad, not_or, not_or] at hsc
    obtain ⟨h1, h2, h3⟩ := hsc
    have hname : (sc.name == "") = false := by simpa using h1
    have hne : sc.age_groups.isEmpty = false := by
      simpa [List.isEmpty_iff] using h2
    have hags : validateAGs sc.age_groups = .ok (sc.age_groups.map convertAG) :=
      validateAGs_ok _ (by simpa using h3)
    have htail := ih (fun x hx => h x (by simp [hx]))
    rw [validateSCs, hname, hne]
    simp only [Bool.false_eq_true, if_false, hags, htail, List.map_cons]
    rfl

theorem validateSCs_err (scs : List SCInput) (h : ∃ sc ∈ scs, scBad sc) :
    ∃ e, validateSCs scs = .error e := by
  induction scs with
  | nil => simp at h
  | cons sc scs ih =>
    by_cases hsc : scBad sc
    · rw [validateSCs]
      by_cases hn : (sc.name == "") = true
      · rw [hn]
        exact ⟨_, rfl⟩
      · rw [Bool.not_eq_true] at hn
        rw [hn]
        by_cases hemp : sc.age_groups.isEmpty = true
        · rw [hemp]
          simp only [Bool.false_eq_true, if_false, if_true]
          exact ⟨_, rfl⟩
        · rw [Bool.not_eq_true] at hemp
          rw [hemp]
          rcases hsc with h1 | h2 | h3
          · exact absurd (by simpa using h1) (by simpa using hn)
          · exact absurd h2 (by simpa [List.isEmpty_iff] using hemp)
          · obtain ⟨e, he⟩ := validateAGs_err sc.age_groups h3
            simp only [Bool.false_eq_true, if_false, he]
            exact ⟨e, rfl⟩
    · have htail : ∃ x ∈ scs, scBad x := by
        rcases h with ⟨x, hx, hbadx⟩
        rcases List.mem_cons.mp hx with rfl | hxs
        · exact absurd hbadx hsc
        · exact ⟨x, hxs, hbadx⟩
      obtain ⟨e, he⟩ := ih htail
      rw [scBad, not_or, not_or] at hsc
      obtain ⟨h1, h2, h3⟩ := hsc
      have hags : validateAGs sc.age_groups = .ok (sc.age_groups.map convertAG) :=
        validateAGs_ok _ (by simpa using h3)
      rw [validateSCs, show (sc.name == "") = false by simpa using h1,
        show sc.age_groups.isEmpty = false by simpa [List.isEmpty_iff] using h2]
      simp only [Bool.false_eq_true, if_false, hags, he]
      exact ⟨e, rfl⟩

theorem validate_ok (p : DiseaseInput) (h : ¬ violatesShape p) :
    validateDiseasePayload p = .ok (convertPayload p) := by
  rw [violatesShape, not_or, not_or] at h
  obtain ⟨h1, h2, h3⟩ := h
  have hscs : validateSCs p.subcategories = .ok (p.subcategories.map convertSC) :=
    validateSCs_ok _ (by simpa using h3)
  rw [validateDiseasePayload, show (p.name == "") = false by simpa using h1,
    show p.subcategories.isEmpty = false by simpa [List.isEmpty_iff] using h2]
  simp only [Bool.or_self, Bool.false_eq_true, if_false, hscs]
  rfl

theorem validate_err (p : DiseaseInput) (h : violatesShape p) :
    ∃ e, validateDiseasePayload p = .error e := by
  rw [validateDiseasePayload]
  by_cases hf : (p.name == "" || p.subcategories.isEmpty) = true
  · rw [hf]
    exact ⟨_, rfl⟩
  · rw [Bool.not_eq_true] at hf
    rw [hf]
    rcases h with h1 | h2 | h3
    · exact absurd (by simpa using h1)
        (by simpa using (Bool.or_eq_false_iff.mp hf).1)
    · exact absurd h2
        (by simpa [List.isEmpty_iff] using (Bool.or_eq_false_iff.mp hf).2)
    · obtain ⟨e, he⟩ := validateSCs_err p.subcategories h3
      simp only [Bool.false_eq_true, if_false, he]
      exact ⟨e, rfl⟩

/-- C8: `validateDiseasePayload` throws exactly on the enumerated shape
violations; on a conforming payload it succeeds returning the payload with
string `medicineId`s converted to numbers in place; and through
`POST /diseases` a violation yields status 400 with no state change. -/
theorem validateDiseasePayload_spec (p : DiseaseInput) (db : DB) :
    ((∃ e, validateDiseasePayload p = .error e) ↔ violatesShape p) ∧
    (¬ violatesShape p → validateDiseasePayload p = .ok (convertPayload p)) ∧
    (violatesShape p → postDisease db p = (400, db)) := by
  refine ⟨⟨?_, validate_err p⟩, validate_ok p, ?_⟩
  · rintro ⟨e, he⟩
    by_contra hno
    rw [validate_ok p hno] at he
    cases he
  · intro h
    obtain ⟨e, he⟩ := validate_err p h
    rw [postDisease, he]

/-- Witness for C8: a conforming payload with a string medicine id is
accepted and converted; an empty payload is among the violations. -/
theorem validateDiseasePayload_spec_witness :
    (¬ violatesShape
      ⟨"Flu", [⟨"Mild", [⟨"ADULT", "18-50", [⟨.str "12", "1x", none⟩]⟩]⟩]⟩) ∧
    validateDiseasePayload
      ⟨"Flu", [⟨"Mild", [⟨"ADULT", "18-50", [⟨.str "12", "1x", none⟩]⟩]⟩]⟩ =
      .ok ⟨"Flu", [⟨"Mild", [⟨"ADULT", "18-50", [⟨.num 12, "1x", none⟩]⟩]⟩]⟩ := by
  constructor
  · decide
  · have h := (validateDiseasePayload_spec
      ⟨"Flu", [⟨"Mild", [⟨"ADULT", "18-50", [⟨.str "12", "1x", none⟩]⟩]⟩]⟩
      emptyDB).2.1 (by decide)
    rw [h]
    rfl

/-! ## C4: `PUT /diseases/:id` is not atomic -/

/-- One disease with one subcategory, age group and prescription, plus the
referenced medicine. -/
def dbC4 : DB :=
  { emptyDB with
      medicines := [⟨1, "Para", "tab", "500", "mg"⟩]
      diseases := [⟨2, "Flu"⟩]
      subcategories := [⟨3, "Mild", 2⟩]
      ageGroups := [⟨4, .ADULT, "18-50", 3⟩]
      prescribed := [⟨5, 4, 1, "1x", ""⟩]
      nextId := 6 }

/-- A replacement payload whose medicine references the nonexistent id 999,
so the recreate step fails. -/
def inpC4 : DiseaseInput :=
  ⟨"Flu", [⟨"Severe", [⟨"ADULT", "18+", [⟨.num 999, "2x", none⟩]⟩]⟩]⟩

/-- C4: on `dbC4` the handler answers 500, yet the disease's previous
prescribed medicines, age groups and subcategories are already gone — the
state changed on error. -/
theorem putDisease_not_atomic :
    (putDisease dbC4 2 inpC4).1 = 500 ∧
    (putDisease dbC4 2 inpC4).2.prescribed = [] ∧
    (putDisease dbC4 2 inpC4).2.ageGroups = [] ∧
    (putDisease dbC4 2 inpC4).2.subcategories = [] ∧
    dbC4.prescribed ≠ [] ∧ dbC4.ageGroups ≠ [] ∧ dbC4.subcategories ≠ [] ∧
    (putDisease dbC4 2 inpC4).2 ≠ dbC4 := by
  decide

/-! ## C5: disease-name uniqueness -/

theorem createMeds_diseases (agId : Nat) (ms : List MedInput) (db : DB) :
    (createMeds agId ms db).diseases = db.diseases := by
  induction ms generalizing db with
  | nil => rfl
  | cons m ms ih => simp [createMeds, insertPM, ih]

theorem createAGs_diseases (toEnum : String → AgeGroupEnum) (scId : Nat)
    (ags : List AGInput) (db : DB) :
    (createAGs toEnum scId ags db).diseases = db.diseases := by
  induction ags generalizing db with
  | nil => rfl
  | cons ag ags ih => simp [createAGs, ih, createMeds_diseases]

theorem createSCs_diseases (toEnum : String → AgeGroupEnum) (did : Nat)
    (scs : List SCInput) (db : DB) :
    (createSCs toEnum did scs db).diseases = db.diseases := by
  induction scs generalizing db with
  | nil => rfl
  | cons sc scs ih => simp [createSCs, ih, createAGs_diseases]

theorem applyCreateDisease_diseases (toEnum : String → AgeGroupEnum)
    (db : DB) (p : DiseaseInput) :
    (applyCreateDisease toEnum db p).diseases =
      db.diseases ++ [⟨db.nextId, p.name⟩] := by
  rw [applyCreateDisease, createSCs_diseases]

/-- Appending a disease with a fresh name keeps names unique. -/
theorem namesUnique_append (db : DB) (i : Nat) (n : String)
    (h : namesUnique db) (hn : ∀ d ∈ db.diseases, d.name ≠ n) :
    ((db.diseases ++ [Disease.mk i n]).map (fun d => d.name)).Nodup := by
  rw [List.map_append, List.nodup_append]
  refine ⟨h, List.nodup_singleton n, ?_⟩
  intro x hx
  rcases List.mem_map.mp hx with ⟨d, hd, rfl⟩
  simp only [List.map_cons, List.map_nil, List.mem_singleton]
  exact hn d hd

theorem postDisease_namesUnique (db : DB) (inp : DiseaseInput)
    (h : namesUnique db) : namesUnique (postDisease db inp).2 := by
  rw [postDisease]
  rcases hv : validateDiseasePayload inp with e | p
  · exact h
  · simp only []
    by_cases hg : groupsOk p.subcategories = true
    case neg =>
      rw [if_neg hg]
      exact h
    case pos =>
    rw [if_pos hg]
    by_cases hdup : db.diseases.any (fun d => d.name == p.name) = true
    · rw [if_pos hdup]
      exact h
    · rw [if_neg hdup]
      by_cases hok : connectsOk db p.subcategories = true
      · rw [if_pos hok]
        show ((applyCreateDisease convGroup db p).diseases.map (fun d => d.name)).Nodup
        rw [applyCreateDisease_diseases]
        refine namesUnique_append db db.nextId p.name h ?_
        intro d hd he
        exact hdup (List.any_eq_true.mpr ⟨d, hd, by simp [he]⟩)
      · rw [if_neg hok]
        exact h

theorem bulkFold_namesUnique (names : List String) (db : DB)
    (h : namesUnique db) : namesUnique (names.foldl bulkDiseaseStep db) := by
  induction names generalizing db with
  | nil => exact h
  | cons n ns ih =>
    rw [List.foldl_cons]
    refine ih _ ?_
    rw [bulkDiseaseStep]
    by_cases hdup : db.diseases.any (fun d => d.name == n) = true
    · rw [if_pos hdup]
      exact h
    · rw [if_neg hdup]
      show ((db.diseases ++ [Disease.mk db.nextId n]).map (fun d => d.name)).Nodup
      refine namesUnique_append db db.nextId n h ?_
      intro d hd heq
      exact hdup (List.any_eq_true.mpr ⟨d, hd, by simp [heq]⟩)

theorem bulkDiseases_namesUnique (db : DB) (names : List String)
    (h : namesUnique db) : namesUnique (bulkDiseases db names).2 := by
  rw [bulkDiseases]
  by_cases he : names.any (fun n => n == "") = true
  · rw [if_pos he]
    exact h
  · rw [if_neg he]
    exact bulkFold_namesUnique names db h

theorem bulkComplex_namesUnique (db : DB) (cs : List DiseaseInput)
    (h : namesUnique db) : namesUnique (bulkComplex db cs).2 := by
  induction cs generalizing db with
  | nil => exact h
  | cons d rest ih =>
    rw [bulkComplex]
    by_cases h0 : (d.name == "") = true
    · rw [if_pos h0]
      exact h
    · rw [if_neg h0]
      by_cases hcl : complexClientOk d.subcategories = true
      case neg =>
        rw [if_neg hcl]
        exact h
      case pos =>
      rw [if_pos hcl]
      by_cases hdup : db.diseases.any (fun x => x.name == d.name) = true
      · rw [if_pos hdup]
        exact ih db h
      · rw [if_neg hdup]
        by_cases hok : connectsFound db d.subcategories = true
        · rw [if_pos hok]
          refine ih _ ?_
          show ((applyCreateDisease complexGroupEnum db d).diseases.map
            (fun x => x.name)).Nodup
          rw [applyCreateDisease_diseases]
          refine namesUnique_append db db.nextId d.name h ?_
          intro x hx heq
          exact hdup (List.any_eq_true.mpr ⟨x, hx, by simp [heq]⟩)
        · rw [if_neg hok]
          exact h

/-- The validator's in-place conversion only touches medicine ids, so it
does not change which group strings the payload carries. -/
theorem groupsOk_convertPayload (p : DiseaseInput) :
    groupsOk (convertPayload p).subcategories = groupsOk p.subcategories := by
  show (p.subcategories.map convertSC).all
      (fun sc => sc.age_groups.all fun ag => (parseAgeGroup ag.group).isSome) =
    p.subcategories.all
      (fun sc => sc.age_groups.all fun ag => (parseAgeGroup ag.group).isSome)
  rw [List.all_map]
  congr 1
  funext sc
  show (sc.age_groups.map convertAG).all
      (fun ag => (parseAgeGroup ag.group).isSome) =
    sc.age_groups.all (fun ag => (parseAgeGroup ag.group).isSome)
  rw [List.all_map]
  congr 1

/-- C5: every disease-creating operation keeps disease names unique, and a
valid `POST /diseases` (shape-conforming, groups in the enum domain) for a
name that already exists answers 409 leaving the diseases untouched. -/
theorem diseaseNames_unique (db : DB) (inp : DiseaseInput)
    (names : List String) (cs : List DiseaseInput) (h : namesUnique db) :
    ((¬ violatesShape inp) → groupsOk inp.subcategories = true →
      db.diseases.any (fun d => d.name == inp.name) = true →
      postDisease db inp = (409, db)) ∧
    namesUnique (postDisease db inp).2 ∧
    namesUnique (bulkDiseases db names).2 ∧
    namesUnique (bulkComplex db cs).2 := by
  refine ⟨?_, postDisease_namesUnique db inp h,
    bulkDiseases_namesUnique db names h, bulkComplex_namesUnique db cs h⟩
  intro hval hgrp hdup
  have hdup2 : (db.diseases.any fun d => d.name == (convertPayload inp).name) = true := hdup
  have hgrp2 : groupsOk (convertPayload inp).subcategories = true := by
    rw [groupsOk_convertPayload]
    exact hgrp
  rw [postDisease]
  simp only [validate_ok inp hval]
  rw [if_pos hgrp2, if_pos hdup2]

/-- Witness for C5 at concrete data: duplicate `POST /diseases` is refused
with 409, bulk creation with an in-batch duplicate stays duplicate-free. -/
theorem diseaseNames_unique_witness :
    namesUnique { emptyDB with diseases := [⟨1, "Flu"⟩], nextId := 2 } ∧
    postDisease { emptyDB with diseases := [⟨1, "Flu"⟩], nextId := 2 }
      ⟨"Flu", [⟨"Mild", [⟨"ADULT", "18-50", [⟨.num 7, "1x", none⟩]⟩]⟩]⟩ =
      (409, { emptyDB with diseases := [⟨1, "Flu"⟩], nextId := 2 }) ∧
    namesUnique (bulkDiseases { emptyDB with diseases := [⟨1, "Flu"⟩], nextId := 2 }
      ["Cold", "Flu", "Cold"]).2 := by
  have h := diseaseNames_unique { emptyDB with diseases := [⟨1, "Flu"⟩], nextId := 2 }
    ⟨"Flu", [⟨"Mild", [⟨"ADULT", "18-50", [⟨.num 7, "1x", none⟩]⟩]⟩]⟩
    ["Cold", "Flu", "Cold"] [] (by decide)
  exact ⟨by decide, h.1 (by decide) (by decide) (by decide), h.2.2.1⟩

/-! ## C2: nurse/department exclusivity -/

/-- A department to attach staff to. -/
def dbC2a : DB := { emptyDB with departments := [⟨1, "Cardio"⟩], nextId := 2 }

/-- After `POST /staff` creating a doctor in department 1. -/
def dbC2b : DB := (postStaff dbC2a ⟨"Ana", "doctor", some 1, none⟩).2.2

/-- After `PUT /staff/2` changing the specialization to nurse (no department
field sent, so Prisma keeps the existing one). -/
def dbC2c : DB := (putStaff dbC2b 2 ⟨none, some "nurse", none, none⟩).2

/-- Counterexample to C2: a state reachable by a successful `POST /staff`
followed by a successful `PUT /staff/:id` violates nurse/department
exclusivity, because the update route performs no business-rule check. -/
theorem staffExclusive_not_invariant :
    staffExclusive dbC2a ∧
    (postStaff dbC2a ⟨"Ana", "doctor", some 1, none⟩).1 = 201 ∧
    (putStaff dbC2b 2 ⟨none, some "nurse", none, none⟩).1 = 200 ∧
    ¬ staffExclusive dbC2c := by
  decide

/-- C2 (amended): `POST /staff` alone preserves nurse/department
exclusivity (for requests whose `departmentId`, when present, is a real
positive id); `PUT /staff/:id` does not enforce the rule. -/
theorem postStaff_preserves_exclusive (db : DB) (r : StaffCreateReq)
    (hr : ∀ d ∈ r.departmentId, 0 < d) (h : staffExclusive db) :
    staffExclusive (postStaff db r).2.2 := by
  rcases hd : r.departmentId with _ | d
  · by_cases hn : r.specialization = "nurse"
    · have hred : (postStaff db r).2.2 =
          { db with
              staff := db.staff ++ [⟨db.nextId, r.name, r.specialization, none,
                r.isAvailable.getD true⟩]
              nextId := db.nextId + 1 } := by
        simp [postStaff, hn, hd, jsFalsyId]
      rw [hred]
      intro s hs
      rcases List.mem_append.mp hs with hold | hnew
      · exact h s hold
      · rcases List.mem_singleton.mp hnew with rfl
        exact ⟨fun _ => rfl, fun hc => absurd hn hc⟩
    · have hred : (postStaff db r).2.2 = db := by
        simp [postStaff, hn, hd, jsFalsyId]
      rw [hred]
      exact h
  · have hdne : d ≠ 0 := Nat.pos_iff_ne_zero.mp (hr d (by simp [hd]))
    by_cases hn : r.specialization = "nurse"
    · have hred : (postStaff db r).2.2 = db := by
        simp [postStaff, hn, hd, jsFalsyId, hdne]
      rw [hred]
      exact h
    · by_cases hfk : db.departments.any (fun x => x.id == d) = true
      · have hred : (postStaff db r).2.2 =
            { db with
                staff := db.staff ++ [⟨db.nextId, r.name, r.specialization,
                  some d, r.isAvailable.getD true⟩]
                nextId := db.nextId + 1 } := by
          simp [postStaff, hn, hd, jsFalsyId, hdne, hfk]
        rw [hred]
        intro s hs
        rcases List.mem_append.mp hs with hold | hnew
        · exact h s hold
        · rcases List.mem_singleton.mp hnew with rfl
          exact ⟨fun hc => absurd hc hn, fun _ hc => Option.noConfusion hc⟩
      · have hred : (postStaff db r).2.2 = db := by
          simp [postStaff, hn, hd, jsFalsyId, hdne, hfk]
        rw [hred]
        exact h

/-- Witness for the amended C2 at concrete data. -/
theorem postStaff_preserves_exclusive_witness :
    staffExclusive dbC2a ∧
    staffExclusive (postStaff dbC2a ⟨"Ana", "doctor", some 1, none⟩).2.2 :=
  ⟨by decide,
    postStaff_preserves_exclusive dbC2a ⟨"Ana", "doctor", some 1, none⟩
      (by decide) (by decide)⟩

/-! ## C1: `PUT /diseases/:id` replaces the subtree

The proof tracks two invariants of the id counter: every stored age-group
id (and the foreign keys into them) is below `nextId`, and subcategory ids
are below `nextId`.  Fresh rows therefore never capture old children and
vice versa. -/

def AgInv (db : DB) : Prop :=
  (∀ ag ∈ db.ageGroups, ag.id < db.nextId ∧ ag.subcategoryId < db.nextId) ∧
  (∀ pm ∈ db.prescribed, pm.ageGroupId < db.nextId)

def ScInv (db : DB) : Prop :=
  (∀ sc ∈ db.subcategories, sc.id < db.nextId) ∧ AgInv db

/-- The prescription rows `createMeds` appends, ids counting up from `n`. -/
def mkPMs (agId : Nat) : Nat → List MedInput → List PrescribedMedicine
  | _, [] => []
  | n, m :: ms =>
    ⟨n, agId, (resolveMedId m.medicineId).getD 0, m.dosage, m.notes.getD ""⟩ ::
      mkPMs agId (n + 1) ms

theorem createMeds_eq (agId : Nat) (ms : List MedInput) (db : DB) :
    createMeds agId ms db =
      { db with
          prescribed := db.prescribed ++ mkPMs agId db.nextId ms
          nextId := db.nextId + ms.length } := by
  induction ms generalizing db with
  | nil => simp [createMeds, mkPMs]
  | cons m ms ih =>
    rw [createMeds, ih]
    cases db
    simp [insertPM, mkPMs, List.append_assoc]
    omega

theorem mkPMs_agId (agId n : Nat) (ms : List MedInput) :
    ∀ pm ∈ mkPMs agId n ms, pm.ageGroupId = agId := by
  induction ms generalizing n with
  | nil => simp [mkPMs]
  | cons m ms ih =>
    intro pm hpm
    rcases List.mem_cons.mp hpm with rfl | hrest
    · rfl
    · exact ih (n + 1) pm hrest

theorem mkPMs_view (agId n : Nat) (ms : List MedInput) :
    (mkPMs agId n ms).map (fun pm => (pm.medicineId, pm.dosage, pm.notes)) =
      ms.map medSpec := by
  induction ms generalizing n with
  | nil => rfl
  | cons m ms ih => simp [mkPMs, medSpec, ih]

theorem mkPMs_filter_self (agId n : Nat) (ms : List MedInput) :
    (mkPMs agId n ms).filter (fun pm => pm.ageGroupId == agId) =
      mkPMs agId n ms := by
  rw [List.filter_eq_self]
  intro pm hpm
  simp [mkPMs_agId agId n ms pm hpm]

theorem mkPMs_filter_other (agId n : Nat) (ms : List MedInput) (a : Nat)
    (h : a ≠ agId) :
    (mkPMs agId n ms).filter (fun pm => pm.ageGroupId == a) = [] := by
  rw [List.filter_eq_nil_iff]
  intro pm hpm
  simp [mkPMs_agId agId n ms pm hpm]
  omega

theorem pmTree_createMeds_self (agId : Nat) (ms : List MedInput) (db : DB)
    (h : ∀ pm ∈ db.prescribed, pm.ageGroupId ≠ agId) :
    pmTree (createMeds agId ms db) agId = ms.map medSpec := by
  rw [pmTree, createMeds_eq]
  show ((db.prescribed ++ mkPMs agId db.nextId ms).filter
    (fun pm => pm.ageGroupId == agId)).map _ = _
  rw [List.filter_append, mkPMs_filter_self,
    show db.prescribed.filter (fun pm => pm.ageGroupId == agId) = [] from
      List.filter_eq_nil_iff.mpr (fun pm hm => by simp [h pm hm]),
    List.nil_append, mkPMs_view]

theorem pmTree_createMeds_other (agId : Nat) (ms : List MedInput) (db : DB)
    (a : Nat) (h : a ≠ agId) :
    pmTree (createMeds agId ms db) a = pmTree db a := by
  rw [pmTree, createMeds_eq]
  show ((db.prescribed ++ mkPMs agId db.nextId ms).filter
    (fun pm => pm.ageGroupId == a)).map _ = _
  rw [List.filter_append, mkPMs_filter_other agId db.nextId ms a h,
    List.append_nil]
  rfl

/-- One iteration of `createAGs`: insert the age-group row, then its
prescriptions. -/
def agStep (toEnum : String → AgeGroupEnum) (scId : Nat) (ag : AGInput)
    (db : DB) : DB :=
  createMeds db.nextId ag.medicines
    { db with
        ageGroups := db.ageGroups ++
          [⟨db.nextId, toEnum ag.group, ag.age_range, scId⟩]
        nextId := db.nextId + 1 }

theorem createAGs_cons (toEnum : String → AgeGroupEnum) (scId : Nat)
    (ag : AGInput) (ags : List AGInput) (db : DB) :
    createAGs toEnum scId (ag :: ags) db =
      createAGs toEnum scId ags (agStep toEnum scId ag db) := rfl

theorem agStep_fields (toEnum : String → AgeGroupEnum) (scId : Nat)
    (ag : AGInput) (db : DB) :
    (agStep toEnum scId ag db).subcategories = db.subcategories ∧
    (agStep toEnum scId ag db).diseases = db.diseases ∧
    (agStep toEnum scId ag db).ageGroups =
      db.ageGroups ++ [⟨db.nextId, toEnum ag.group, ag.age_range, scId⟩] ∧
    (agStep toEnum scId ag db).prescribed =
      db.prescribed ++ mkPMs db.nextId (db.nextId + 1) ag.medicines ∧
    (agStep toEnum scId ag db).nextId = db.nextId + 1 + ag.medicines.length := by
  rw [agStep, createMeds_eq]
  exact ⟨rfl, rfl, rfl, rfl, rfl⟩

theorem agStep_inv (toEnum : String → AgeGroupEnum) (scId : Nat)
    (ag : AGInput) (db : DB) (hinv : AgInv db) (hsc : scId < db.nextId) :
    AgInv (agStep toEnum scId ag db) ∧
    db.nextId + 1 ≤ (agStep toEnum scId ag db).nextId := by
  obtain ⟨-, -, hag, hpm, hn⟩ := agStep_fields toEnum scId ag db
  refine ⟨⟨?_, ?_⟩, by rw [hn]; omega⟩
  · intro a ha
    rw [hag] at ha
    rw [hn]
    rcases List.mem_append.mp ha with hold | hnew
    · have := hinv.1 a hold
      omega
    · rcases List.mem_singleton.mp hnew with rfl
      simp only []
      omega
  · intro pm hm
    rw [hpm] at hm
    rw [hn]
    rcases List.mem_append.mp hm with hold | hnew
    · have := hinv.2 pm hold
      omega
    · have := mkPMs_agId db.nextId (db.nextId + 1) ag.medicines pm hnew
      omega

theorem agStep_agTree_self (toEnum : String → AgeGroupEnum) (scId : Nat)
    (ag : AGInput) (db : DB) (hinv : AgInv db) (_hsc : scId < db.nextId) :
    agTree (agStep toEnum scId ag db) scId =
      agTree db scId ++ [agSpec toEnum ag] := by
  obtain ⟨-, -, hag, hpm, -⟩ := agStep_fields toEnum scId ag db
  rw [agTree, hag, List.filter_append,
    show List.filter (fun a => a.subcategoryId == scId)
      [(⟨db.nextId, toEnum ag.group, ag.age_range, scId⟩ : AgeGroup)] =
      [⟨db.nextId, toEnum ag.group, ag.age_range, scId⟩] from by simp,
    List.map_append]
  congr 1
  · rw [agTree]
    apply List.map_congr_left
    intro a ha
    have hmem : a ∈ db.ageGroups := List.mem_of_mem_filter ha
    have hlt : a.id < db.nextId := (hinv.1 a hmem).1
    have hstable : pmTree (agStep toEnum scId ag db) a.id = pmTree db a.id := by
      rw [pmTree, hpm, List.filter_append,
        mkPMs_filter_other _ _ _ _ (by omega), List.append_nil]
      rfl
    rw [hstable]
  · simp only [List.map_cons, List.map_nil]
    have hnew : pmTree (agStep toEnum scId ag db) db.nextId =
        ag.medicines.map medSpec := by
      rw [pmTree, hpm, List.filter_append, mkPMs_filter_self,
        show db.prescribed.filter (fun pm => pm.ageGroupId == db.nextId) = []
          from List.filter_eq_nil_iff.mpr (fun pm hm => by
            have := hinv.2 pm hm
            simp only [beq_iff_eq]
            omega),
        List.nil_append, mkPMs_view]
    rw [hnew]
    rfl

theorem agStep_agTree_other (toEnum : String → AgeGroupEnum) (scId : Nat)
    (ag : AGInput) (db : DB) (s : Nat) (hs : s ≠ scId) (hinv : AgInv db) :
    agTree (agStep toEnum scId ag db) s = agTree db s := by
  obtain ⟨-, -, hag, hpm, -⟩ := agStep_fields toEnum scId ag db
  rw [agTree, hag, List.filter_append,
    show List.filter (fun a => a.subcategoryId == s)
      [(⟨db.nextId, toEnum ag.group, ag.age_range, scId⟩ : AgeGroup)] = []
      from by simp [Ne.symm hs],
    List.append_nil]
  rw [agTree]
  apply List.map_congr_left
  intro a ha
  have hmem : a ∈ db.ageGroups := List.mem_of_mem_filter ha
  have hlt : a.id < db.nextId := (hinv.1 a hmem).1
  have hstable : pmTree (agStep toEnum scId ag db) a.id = pmTree db a.id := by
    rw [pmTree, hpm, List.filter_append,
      mkPMs_filter_other _ _ _ _ (by omega), List.append_nil]
    rfl
  rw [hstable]

theorem createAGs_spec (toEnum : String → AgeGroupEnum) (scId : Nat)
    (ags : List AGInput) :
    ∀ db : DB, AgInv db → scId < db.nextId →
    (createAGs toEnum scId ags db).subcategories = db.subcategories ∧
    (createAGs toEnum scId ags db).diseases = db.diseases ∧
    db.nextId ≤ (createAGs toEnum scId ags db).nextId ∧
    AgInv (createAGs toEnum scId ags db) ∧
    agTree (createAGs toEnum scId ags db) scId =
      agTree db scId ++ ags.map (agSpec toEnum) ∧
    (∀ s, s ≠ scId → agTree (createAGs toEnum scId ags db) s = agTree db s) := by
  induction ags with
  | nil =>
    intro db hinv _
    exact ⟨rfl, rfl, le_refl _, hinv, by simp [createAGs], fun s _ => rfl⟩
  | cons ag ags ih =>
    intro db hinv hsc
    rw [createAGs_cons]
    obtain ⟨hinv2, hmono⟩ := agStep_inv toEnum scId ag db hinv hsc
    have hsc2 : scId < (agStep toEnum scId ag db).nextId := by omega
    obtain ⟨h1, h2, h3, h4, h5, h6⟩ := ih (agStep toEnum scId ag db) hinv2 hsc2
    obtain ⟨hsubs, hdis, -, -, -⟩ := agStep_fields toEnum scId ag db
    refine ⟨by rw [h1, hsubs], by rw [h2, hdis], by omega, h4, ?_, ?_⟩
    · rw [h5, agStep_agTree_self toEnum scId ag db hinv hsc]
      simp [List.append_assoc, agSpec]
    · intro s hs
      rw [h6 s hs, agStep_agTree_other toEnum scId ag db s hs hinv]

/-- One iteration of `createSCs`: insert the subcategory row, then its age
groups. -/
def scStep (toEnum : String → AgeGroupEnum) (did : Nat) (sc : SCInput)
    (db : DB) : DB :=
  createAGs toEnum db.nextId sc.age_groups
    { db with
        subcategories := db.subcategories ++ [⟨db.nextId, sc.name, did⟩]
        nextId := db.nextId + 1 }

theorem createSCs_cons (toEnum : String → AgeGroupEnum) (did : Nat)
    (sc : SCInput) (scs : List SCInput) (db : DB) :
    createSCs toEnum did (sc :: scs) db =
      createSCs toEnum did scs (scStep toEnum did sc db) := rfl

theorem scStep_spec (toEnum : String → AgeGroupEnum) (did : Nat)
    (sc : SCInput) (db : DB) (hinv : ScInv db) :
    (scStep toEnum did sc db).diseases = db.diseases ∧
    db.nextId + 1 ≤ (scStep toEnum did sc db).nextId ∧
    ScInv (scStep toEnum did sc db) ∧
    scTree (scStep toEnum did sc db) did = scTree db did ++ [scSpec toEnum sc] ∧
    (∀ d, d ≠ did → scTree (scStep toEnum did sc db) d = scTree db d) := by
  have hinv1 : AgInv { db with
      subcategories := db.subcategories ++ [⟨db.nextId, sc.name, did⟩]
      nextId := db.nextId + 1 } := by
    constructor
    · intro a ha
      have := hinv.2.1 a ha
      constructor <;> (show _ < db.nextId + 1; omega)
    · intro pm hm
      have := hinv.2.2 pm hm
      show _ < db.nextId + 1
      omega
  have hscn : db.nextId < ({ db with
      subcategories := db.subcategories ++ [⟨db.nextId, sc.name, did⟩]
      nextId := db.nextId + 1 } : DB).nextId := by
    show db.nextId < db.nextId + 1
    omega
  obtain ⟨hsubs2, hdis2, hmono2, hinv2, htree2, hother2⟩ :=
    createAGs_spec toEnum db.nextId sc.age_groups _ hinv1 hscn
  have hsubs : (scStep toEnum did sc db).subcategories =
      db.subcategories ++ [⟨db.nextId, sc.name, did⟩] := hsubs2
  have hdis : (scStep toEnum did sc db).diseases = db.diseases := hdis2
  have hmono : db.nextId + 1 ≤ (scStep toEnum did sc db).nextId := hmono2
  have hinvA : AgInv (scStep toEnum did sc db) := hinv2
  have htree : agTree (scStep toEnum did sc db) db.nextId =
      agTree db db.nextId ++ sc.age_groups.map (agSpec toEnum) := htree2
  have hother : ∀ s, s ≠ db.nextId →
      agTree (scStep toEnum did sc db) s = agTree db s :=
    fun s hns => hother2 s hns
  have hfil : db.ageGroups.filter (fun a => a.subcategoryId == db.nextId) = [] :=
    List.filter_eq_nil_iff.mpr (fun a ha => by
      have := (hinv.2.1 a ha).2
      simp only [beq_iff_eq]
      omega)
  refine ⟨hdis, hmono, ?_, ?_, ?_⟩
  · refine ⟨?_, hinvA⟩
    intro s hs
    rw [hsubs] at hs
    rcases List.mem_append.mp hs with hold | hnew
    · have := hinv.1 s hold
      omega
    · rcases List.mem_singleton.mp hnew with rfl
      show db.nextId < _
      omega
  · rw [scTree, hsubs, List.filter_append,
      show List.filter (fun s => s.diseaseId == did)
        [(⟨db.nextId, sc.name, did⟩ : Subcategory)] =
        [⟨db.nextId, sc.name, did⟩] from by simp,
      List.map_append]
    congr 1
    · rw [scTree]
      apply List.map_congr_left
      intro s hsm
      have hmem : s ∈ db.subcategories := List.mem_of_mem_filter hsm
      have hlt : s.id < db.nextId := hinv.1 s hmem
      rw [hother s.id (by omega)]
    · simp only [List.map_cons, List.map_nil]
      have hempty : agTree db db.nextId = [] := by
        rw [agTree, hfil]
        rfl
      rw [htree, hempty, List.nil_append]
      rfl
  · intro d hd
    rw [scTree, hsubs, List.filter_append,
      show List.filter (fun s => s.diseaseId == d)
        [(⟨db.nextId, sc.name, did⟩ : Subcategory)] = [] from by
          simp [Ne.symm hd],
      List.append_nil]
    rw [scTree]
    apply List.map_congr_left
    intro s hsm
    have hmem : s ∈ db.subcategories := List.mem_of_mem_filter hsm
    have hlt : s.id < db.nextId := hinv.1 s hmem
    rw [hother s.id (by omega)]

theorem createSCs_spec (toEnum : String → AgeGroupEnum) (did : Nat)
    (scs : List SCInput) :
    ∀ db : DB, ScInv db →
    (createSCs toEnum did scs db).diseases = db.diseases ∧
    db.nextId ≤ (createSCs toEnum did scs db).nextId ∧
    ScInv (createSCs toEnum did scs db) ∧
    scTree (createSCs toEnum did scs db) did =
      scTree db did ++ scs.map (scSpec toEnum) ∧
    (∀ d, d ≠ did → scTree (createSCs toEnum did scs db) d = scTree db d) := by
  induction scs with
  | nil =>
    intro db hinv
    exact ⟨rfl, le_refl _, hinv, by simp [createSCs], fun d _ => rfl⟩
  | cons sc scs ih =>
    intro db hinv
    rw [createSCs_cons]
    obtain ⟨hdis1, hmono1, hinv1, htree1, hother1⟩ :=
      scStep_spec toEnum did sc db hinv
    obtain ⟨hdis2, hmono2, hinv2, htree2, hother2⟩ :=
      ih (scStep toEnum did sc db) hinv1
    refine ⟨by rw [hdis2, hdis1], by omega, hinv2, ?_, ?_⟩
    · rw [htree2, htree1]
      simp [List.append_assoc]
    · intro d hd
      rw [hother2 d hd, hother1 d hd]

theorem deleteSubtree_fields (db : DB) (did : Nat) :
    (deleteSubtree db did).diseases = db.diseases ∧
    (deleteSubtree db did).nextId = db.nextId ∧
    (deleteSubtree db did).subcategories =
      db.subcategories.filter (fun sc => !(sc.diseaseId == did)) ∧
    (deleteSubtree db did).ageGroups =
      db.ageGroups.filter (fun ag =>
        !(db.subcategories.any (fun sc =>
            sc.id == ag.subcategoryId && sc.diseaseId == did))) ∧
    (deleteSubtree db did).prescribed =
      db.prescribed.filter (fun pm =>
        !(db.ageGroups.any (fun ag =>
            ag.id == pm.ageGroupId &&
            db.subcategories.any (fun sc =>
              sc.id == ag.subcategoryId && sc.diseaseId == did)))) :=
  ⟨rfl, rfl, rfl, rfl, rfl⟩

theorem deleteSubtree_ScInv (db : DB) (did : Nat) (hb : Bounded db) :
    ScInv (deleteSubtree db did) := by
  obtain ⟨-, hnext, hsubs, hags, hpms⟩ := deleteSubtree_fields db did
  refine ⟨?_, ⟨?_, ?_⟩⟩
  · intro s hs
    rw [hsubs] at hs
    rw [hnext]
    exact hb.1 s (List.mem_of_mem_filter hs)
  · intro a ha
    rw [hags] at ha
    rw [hnext]
    exact hb.2.1 a (List.mem_of_mem_filter ha)
  · intro pm hm
    rw [hpms] at hm
    rw [hnext]
    exact hb.2.2 pm (List.mem_of_mem_filter hm)

theorem deleteSubtree_scTree_self (db : DB) (did : Nat) :
    scTree (deleteSubtree db did) did = [] := by
  obtain ⟨-, -, hsubs, -, -⟩ := deleteSubtree_fields db did
  rw [scTree, hsubs, List.filter_comm]
  rw [show (db.subcategories.filter (fun s => s.diseaseId == did)).filter
      (fun sc => !(sc.diseaseId == did)) = [] from
    List.filter_eq_nil_iff.mpr (fun s hs => by
      have := List.of_mem_filter hs
      simp_all)]
  rfl

/-- No age group under a surviving subcategory is deleted, and no
prescription under a surviving age group is deleted (primary keys are
distinct). -/
theorem deleteSubtree_agTree (db : DB) (did : Nat) (hnod : NodupIds db)
    (s : Subcategory) (hs : s ∈ db.subcategories) (hsd : s.diseaseId ≠ did) :
    agTree (deleteSubtree db did) s.id = agTree db s.id := by
  obtain ⟨-, -, -, hags, hpms⟩ := deleteSubtree_fields db did
  have hagKeep : ∀ ag : AgeGroup, ag.subcategoryId = s.id →
      (db.subcategories.any (fun sc =>
        sc.id == ag.subcategoryId && sc.diseaseId == did)) = false := by
    intro ag hag
    rw [← Bool.not_eq_true, List.any_eq_true]
    rintro ⟨sc, hsc, hcond⟩
    rw [Bool.and_eq_true, beq_iff_eq, beq_iff_eq] at hcond
    have : sc = s :=
      List.inj_on_of_nodup_map hnod.1 hsc hs (by rw [hcond.1, hag])
    exact hsd (by rw [← this, hcond.2])
  rw [agTree, hags, List.filter_comm]
  rw [show (db.ageGroups.filter (fun ag => ag.subcategoryId == s.id)).filter
      (fun ag => !(db.subcategories.any (fun sc =>
        sc.id == ag.subcategoryId && sc.diseaseId == did))) =
      db.ageGroups.filter (fun ag => ag.subcategoryId == s.id) from
    List.filter_eq_self.mpr (fun ag hag => by
      have hmm := List.of_mem_filter hag
      rw [beq_iff_eq] at hmm
      rw [hagKeep ag hmm]
      rfl)]
  rw [agTree]
  apply List.map_congr_left
  intro ag hag
  have hagmem : ag ∈ db.ageGroups := List.mem_of_mem_filter hag
  have hagsc : ag.subcategoryId = s.id := by
    have := List.of_mem_filter hag
    rwa [beq_iff_eq] at this
  have hpmKeep : ∀ pm : PrescribedMedicine, pm.ageGroupId = ag.id →
      (db.ageGroups.any (fun a =>
        a.id == pm.ageGroupId &&
        db.subcategories.any (fun sc =>
          sc.id == a.subcategoryId && sc.diseaseId == did))) = false := by
    intro pm hpm
    rw [← Bool.not_eq_true, List.any_eq_true]
    rintro ⟨a, hamem, hcond⟩
    rw [Bool.and_eq_true, beq_iff_eq] at hcond
    have : a = ag :=
      List.inj_on_of_nodup_map hnod.2 hamem hagmem (by rw [hcond.1, hpm])
    have hgone := hcond.2
    rw [this] at hgone
    rw [hagKeep ag hagsc] at hgone
    cases hgone
  have : pmTree (deleteSubtree db did) ag.id = pmTree db ag.id := by
    rw [pmTree, hpms, List.filter_comm]
    rw [show (db.prescribed.filter (fun pm => pm.ageGroupId == ag.id)).filter
        (fun pm => !(db.ageGroups.any (fun a =>
          a.id == pm.ageGroupId &&
          db.subcategories.any (fun sc =>
            sc.id == a.subcategoryId && sc.diseaseId == did)))) =
        db.prescribed.filter (fun pm => pm.ageGroupId == ag.id) from
      List.filter_eq_self.mpr (fun pm hpm => by
        have hmm := List.of_mem_filter hpm
        rw [beq_iff_eq] at hmm
        rw [hpmKeep pm hmm]
        rfl)]
    rfl
  rw [this]

theorem deleteSubtree_scTree_other (db : DB) (did d : Nat) (hd : d ≠ did)
    (hnod : NodupIds db) :
    scTree (deleteSubtree db did) d = scTree db d := by
  obtain ⟨-, -, hsubs, -, -⟩ := deleteSubtree_fields db did
  rw [scTree, hsubs, List.filter_comm]
  rw [show (db.subcategories.filter (fun s => s.diseaseId == d)).filter
      (fun sc => !(sc.diseaseId == did)) =
      db.subcategories.filter (fun s => s.diseaseId == d) from
    List.filter_eq_self.mpr (fun s hs => by
      have := List.of_mem_filter hs
      rw [beq_iff_eq] at this
      simp [this, hd])]
  rw [scTree]
  apply List.map_congr_left
  intro s hs
  have hmem : s ∈ db.subcategories := List.mem_of_mem_filter hs
  have hsd : s.diseaseId ≠ did := by
    have := List.of_mem_filter hs
    rw [beq_iff_eq] at this
    rw [this]
    exact hd
  rw [deleteSubtree_agTree db did hnod s hmem hsd]

theorem rename_id (did : Nat) (nm : String) (x : Disease) :
    (if x.id == did then ({ x with name := nm } : Disease) else x).id = x.id := by
  by_cases hx : (x.id == did) = true
  · rw [if_pos hx]
  · rw [if_neg hx]

theorem find?_map_rename_self (l : List Disease) (did : Nat) (nm : String) :
    (l.map (fun d => if d.id == did then { d with name := nm } else d)).find?
      (fun d => d.id == did) =
      (l.find? (fun d => d.id == did)).map (fun d => { d with name := nm }) := by
  induction l with
  | nil => rfl
  | cons x xs ih =>
    rw [List.map_cons, List.find?_cons, List.find?_cons]
    show (match (if x.id == did then ({ x with name := nm } : Disease) else x).id == did with
      | true => some (if x.id == did then ({ x with name := nm } : Disease) else x)
      | false => (xs.map (fun d : Disease =>
          if d.id == did then { d with name := nm } else d)).find?
          (fun d : Disease => d.id == did)) = _
    rw [rename_id]
    cases hx : x.id == did
    · rw [ih]
    · rfl

theorem find?_map_rename_other (l : List Disease) (did d : Nat) (nm : String)
    (hd : d ≠ did) :
    (l.map (fun x => if x.id == did then { x with name := nm } else x)).find?
      (fun x => x.id == d) = l.find? (fun x => x.id == d) := by
  induction l with
  | nil => rfl
  | cons x xs ih =>
    rw [List.map_cons, List.find?_cons, List.find?_cons]
    show (match (if x.id == did then ({ x with name := nm } : Disease) else x).id == d with
      | true => some (if x.id == did then ({ x with name := nm } : Disease) else x)
      | false => (xs.map (fun x : Disease =>
          if x.id == did then { x with name := nm } else x)).find?
          (fun x : Disease => x.id == d)) = _
    rw [rename_id]
    cases hxd : x.id == d
    · rw [ih]
    · have hxdid : (x.id == did) = false := by
        rw [beq_iff_eq] at hxd
        rw [beq_eq_false_iff_ne, hxd]
        exact hd
      rw [if_neg (by rw [hxdid]; exact Bool.false_ne_true)]

/-- C1: with a well-formed database, a successful `PUT /diseases/:id`
leaves the disease's name and subtree exactly as the payload describes them
(string medicine ids parsed, groups converted, notes defaulting to the empty
string) and leaves every other disease's subtree untouched. -/
theorem putDisease_spec (db : DB) (did : Nat) (inp : DiseaseInput)
    (hwf : WF db) (hok : (putDisease db did inp).1 = 200) :
    diseaseTree (putDisease db did inp).2 did =
      some (inp.name, inp.subcategories.map (scSpec convGroup)) ∧
    (∀ d, d ≠ did → diseaseTree (putDisease db did inp).2 d = diseaseTree db d) := by
  by_cases hcnd : ((deleteSubtree db did).diseases.any (fun d => d.id == did) &&
      (deleteSubtree db did).diseases.all
        (fun d => d.id == did || d.name != inp.name) &&
      payloadOk (deleteSubtree db did) inp.subcategories) = true
  case neg =>
    exfalso
    simp only [putDisease] at hok
    rw [if_neg hcnd] at hok
    simp at hok
  case pos =>
  have hput : putDisease db did inp =
      (200, createSCs convGroup did inp.subcategories
        { deleteSubtree db did with
            diseases := (deleteSubtree db did).diseases.map
              (fun d => if d.id == did then { d with name := inp.name } else d) }) := by
    simp only [putDisease]
    rw [if_pos hcnd]
  have hres : (putDisease db did inp).2 =
      createSCs convGroup did inp.subcategories
        { deleteSubtree db did with
            diseases := (deleteSubtree db did).diseases.map
              (fun d => if d.id == did then { d with name := inp.name } else d) } := by
    rw [hput]
  have hb : Bounded db := hwf.1
  have hnod : NodupIds db := hwf.2
  obtain ⟨hdis, hmono, hinv3, htree, hother⟩ :=
    createSCs_spec convGroup did inp.subcategories
      { deleteSubtree db did with
          diseases := (deleteSubtree db did).diseases.map
            (fun d => if d.id == did then { d with name := inp.name } else d) }
      (deleteSubtree_ScInv db did hb)
  have hdisR : (createSCs convGroup did inp.subcategories
      { deleteSubtree db did with
          diseases := (deleteSubtree db did).diseases.map
            (fun d => if d.id == did then { d with name := inp.name } else d) }).diseases =
      db.diseases.map
        (fun d => if d.id == did then { d with name := inp.name } else d) := by
    rw [hdis]
    exact rfl
  have hzero : scTree
      { deleteSubtree db did with
          diseases := (deleteSubtree db did).diseases.map
            (fun d => if d.id == did then { d with name := inp.name } else d) }
      did = [] := deleteSubtree_scTree_self db did
  have hscTreeR : scTree (createSCs convGroup did inp.subcategories
      { deleteSubtree db did with
          diseases := (deleteSubtree db did).diseases.map
            (fun d => if d.id == did then { d with name := inp.name } else d) })
      did = inp.subcategories.map (scSpec convGroup) := by
    rw [htree, hzero, List.nil_append]
  have hany : db.diseases.any (fun d => d.id == did) = true := by
    simp only [Bool.and_eq_true] at hcnd
    exact hcnd.1.1
  constructor
  · rw [hres, diseaseTree, hdisR, find?_map_rename_self]
    obtain ⟨d1, hfind⟩ : ∃ d1, db.diseases.find? (fun d => d.id == did) = some d1 :=
      Option.isSome_iff_exists.mp (List.find?_isSome.mpr (by
        obtain ⟨x, hx, hp⟩ := List.any_eq_true.mp hany
        exact ⟨x, hx, hp⟩))
    rw [hfind]
    simp only [Option.map_some']
    rw [hscTreeR]
  · intro d hd
    rw [hres, diseaseTree, diseaseTree, hdisR,
      find?_map_rename_other _ _ _ _ hd]
    have hsc : scTree (createSCs convGroup did inp.subcategories
        { deleteSubtree db did with
            diseases := (deleteSubtree db did).diseases.map
              (fun d => if d.id == did then { d with name := inp.name } else d) })
        d = scTree db d := by
      rw [hother d hd]
      exact deleteSubtree_scTree_other db did d hd hnod
    rw [hsc]

/-- Two diseases with full subtrees and a medicine for the witness. -/
def dbC1 : DB :=
  { emptyDB with
      medicines := [⟨1, "Para", "tab", "500", "mg"⟩]
      diseases := [⟨2, "Flu"⟩, ⟨9, "Cold"⟩]
      subcategories := [⟨3, "Mild", 2⟩, ⟨10, "Any", 9⟩]
      ageGroups := [⟨4, .ADULT, "18-50", 3⟩, ⟨11, .CHILD, "0-5", 10⟩]
      prescribed := [⟨5, 4, 1, "1x", ""⟩, ⟨12, 11, 1, "2x", "with food"⟩]
      nextId := 13 }

/-- A valid replacement payload (string medicine id, valid group). -/
def inpC1 : DiseaseInput :=
  ⟨"Influenza", [⟨"Severe", [⟨"ADULT", "18+", [⟨.str "1", "3x", none⟩]⟩]⟩]⟩

/-- Witness for C1 at concrete data: disease 2 is replaced, disease 9 is
untouched. -/
theorem putDisease_spec_witness :
    WF dbC1 ∧ (putDisease dbC1 2 inpC1).1 = 200 ∧
    diseaseTree (putDisease dbC1 2 inpC1).2 2 =
      some (inpC1.name, inpC1.subcategories.map (scSpec convGroup)) ∧
    diseaseTree (putDisease dbC1 2 inpC1).2 9 = diseaseTree dbC1 9 := by
  refine ⟨by decide, by decide, ?_, ?_⟩
  · exact (putDisease_spec dbC1 2 inpC1 (by decide) (by decide)).1
  · exact (putDisease_spec dbC1 2 inpC1 (by decide) (by decide)).2 9 (by decide)

end Hospital
